import Mathlib

/-
Verification of the reactive dependency-tracking core of the repository
(`src/reactive/signals.js`): `createSignal`, `createEffect`, `createComputed`
and the `$state` per-property reactive proxy.

Embedding style: the engine's process-wide mutable state (signal values,
per-source subscriber sets, the `EFFECT_DEPS` weak map, the `EFFECT_STACK`,
the `$state` target record, its per-property signal map and its global
subscriber set) becomes an explicit `World` record threaded through every
operation.  User computation bodies (the `fn` arguments of effects, computeds
and signal subscribers) are a small deep-embedded expression language `Expr`
covering exactly what bodies in the source and in the spec's scenarios do:
read signals, read `$state` properties, compute, append to a log, return a
function value (the cleanup convention) and throw.  JS `Set`s are modelled as
duplicate-free insertion-ordered lists (`insertUnique` / `setRemove`), JS
`===` on the modelled value type as structural equality (the claims never
compare function values), `try/catch` + `console.error` /
`setTimeout(() => { throw err; })` as report-and-continue (an error counter
plus a ghost trace event).  A ghost `trace` of events (never read by the
engine) records the order of unsubscription, cleanup invocation, stack
push/pop and body invocation so that sequencing claims can be stated.
-/

namespace RSig

/-- Deep-embedded bodies of reactive computations (the `fn` arguments).
`fnE b` is a function literal (evaluates to a function value, the cleanup
convention); `logE` models pushing a value onto an observation log as the
spec scenarios do; `throwE` models a user exception. -/
inductive Expr where
  | num (n : Int)
  | undefE
  | fnE (body : Expr)
  | getSig (s : Nat)
  | getProp (p : String)
  | seq (a b : Expr)
  | mul (a b : Expr)
  | logE (e : Expr)
  | throwE
deriving DecidableEq, Repr

/-- Modelled JS values: `undefined`, numbers, strings and function values
(a closure carrying its body).  `===` is modelled as structural equality;
no claim compares function values, where JS would use reference equality. -/
inductive Val where
  | undef
  | int (n : Int)
  | str (s : String)
  | closure (body : Expr)
deriving DecidableEq, Repr

/-- A member of a `DependencySource`'s subscriber set (`__subs`): either an
effect/computed runner or a plain `subscribe` callback.  In the source both
are plain functions stored in one `Set`. -/
inductive Sub where
  | runner (r : Nat)
  | cb (c : Nat)
deriving DecidableEq, Repr

/-- Ghost trace events recording the order of engine steps.  They are never
read by the engine; they only make sequencing observable to theorems. -/
inductive Ev where
  | unsub (r s : Nat)
  | cleanupRun (r : Nat)
  | push (r : Nat)
  | bodyStart (r : Nat)
  | pop (r : Nat)
  | report
  | cbRun (c : Nat)
deriving DecidableEq, Repr

/-- Whether a runner entry is an effect's `runner` or a computed's
`recompute`; the subscriber stored in the source is the respective function,
so notification dispatches on this. -/
inductive RKind where
  | effect
  | computed
deriving DecidableEq, Repr

/-- Per-runner state: the body `fn`, the current `cleanup` slot, the kind,
and for computeds the `cached` value and `dirty` flag (`let cached;` starts
as `undefined`, `dirty` starts `true`).  `calls` is a ghost counter of how
many times `fn` has been invoked. -/
structure RunnerInfo where
  body : Expr
  cleanup : Option Expr
  kind : RKind
  cached : Val
  dirty : Bool
  calls : Nat
deriving Repr

/-- JS `Set.add`: append if not already present (insertion order kept). -/
def insertUnique {α : Type} [DecidableEq α] (l : List α) (a : α) : List α :=
  if a ∈ l then l else l ++ [a]

/-- JS `Set.delete`: remove the element (our lists are duplicate-free). -/
def setRemove {α : Type} [DecidableEq α] (l : List α) (a : α) : List α :=
  l.filter (fun x => x ≠ a)

/-- Lookup in an insertion-ordered string-keyed record (`target[prop]`,
`Map.get`). -/
def alookup {α : Type} (l : List (String × α)) (k : String) : Option α :=
  (l.find? (fun e => e.1 == k)).map (fun e => e.2)

/-- Store into an insertion-ordered string-keyed record, keeping the position
of an existing key (JS object / `Map.set` semantics). -/
def aset {α : Type} (l : List (String × α)) (k : String) (v : α) : List (String × α) :=
  match l with
  | [] => [(k, v)]
  | e :: t => if e.1 == k then (k, v) :: t else e :: aset t k v

/-- Remove a key (`delete target[prop]`, `Map.delete`). -/
def aremove {α : Type} (l : List (String × α)) (k : String) : List (String × α) :=
  l.filter (fun e => !(e.1 == k))

/-- The whole mutable state of the reactive module.
`srcVal`: each signal's `value`; `srcSubs`: each dependency source's
`__subs` set; `deps`: the `EFFECT_DEPS` weak map (`none` = no entry);
`runners`: runner state; `cbs`: bodies of plain signal subscribers;
`stack`: `EFFECT_STACK` (head = top); `fresh`: allocator for ids;
`log`: the scenarios' observation log; `errs`: count of reported (caught)
errors; `target`/`propSigs`/`gsubs`/`gcalls`: the `$state` proxy's
underlying record, its per-property signal map (`STATE_PROP_SIGNALS`),
its global subscriber set and the ghost record of global-subscriber
invocations `(cb, key, oldVal, newVal)`; `trace`: ghost event trace. -/
structure World where
  srcVal : Nat → Val
  srcSubs : Nat → List Sub
  deps : Nat → Option (List Nat)
  runners : Nat → RunnerInfo
  cbs : Nat → Expr
  stack : List Nat
  fresh : Nat
  log : List Val
  errs : Nat
  target : List (String × Val)
  propSigs : List (String × Nat)
  gsubs : List Nat
  gcalls : List (Nat × String × Val × Val)
  trace : List Ev

/-- The initial world: nothing allocated, empty `$state` target. -/
def initWorld : World where
  srcVal := fun _ => Val.undef
  srcSubs := fun _ => []
  deps := fun _ => none
  runners := fun _ =>
    { body := Expr.undefE, cleanup := none, kind := RKind.effect
      cached := Val.undef, dirty := true, calls := 0 }
  cbs := fun _ => Expr.undefE
  stack := []
  fresh := 0
  log := []
  errs := 0
  target := []
  propSigs := []
  gsubs := []
  gcalls := []
  trace := []

/-- Source `_trackDependency(runner, signalKey)` (signals.js 15-28): add the
runner to the source's `__subs` if absent, and add the source to the runner's
`EFFECT_DEPS` set (creating the entry if absent). -/
def trackDependency (r : Nat) (s : Nat) (w : World) : World :=
  let w := { w with srcSubs := Function.update w.srcSubs s (insertUnique (w.srcSubs s) (Sub.runner r)) }
  let ds := (w.deps r).getD []
  { w with deps := Function.update w.deps r (some (insertUnique ds s)) }

/-- Source `get()` of `createSignal` (signals.js 38-44): if a runner is
active (top of `EFFECT_STACK`), track the dependency; return the value. -/
def sigGet (s : Nat) (w : World) : Val × World :=
  match w.stack with
  | r :: _ => (w.srcVal s, trackDependency r s w)
  | [] => (w.srcVal s, w)

/-- Source `_ensurePropSignalFor(target, prop)` (signals.js 194-206):
resolve or lazily create the per-property signal cell of the proxy. -/
def ensurePropSig (p : String) (w : World) : Nat × World :=
  match alookup w.propSigs p with
  | some sid => (sid, w)
  | none => (w.fresh, { w with propSigs := aset w.propSigs p w.fresh, fresh := w.fresh + 1 })

/-- What a proxy property read produces: the `__isState` marker, the
`subscribe` / `inspect` interceptor functions, or a data value. -/
inductive PropRead where
  | isState
  | subFn
  | inspectFn
  | data (v : Val)
deriving DecidableEq, Repr

/-- Source `handler.get` of `$state` (signals.js 218-232): intercept the
reserved names before anything else; otherwise, if a runner is active,
lazily create the property's signal and track it; return the raw value
(`undefined` when absent). -/
def stateGet (p : String) (w : World) : PropRead × World :=
  if p = "__isState" then (PropRead.isState, w)
  else if p = "subscribe" then (PropRead.subFn, w)
  else if p = "inspect" then (PropRead.inspectFn, w)
  else
    let w :=
      match w.stack with
      | r :: _ =>
          let pr := ensurePropSig p w
          trackDependency r pr.1 pr.2
      | [] => w
    (PropRead.data ((alookup w.target p).getD Val.undef), w)

/-- Source `inspect` (signals.js 221): `() => Object.assign({}, target)` — a
shallow copy of the raw target, produced without touching any reactive
state. -/
def stateInspect (w : World) : List (String × Val) :=
  w.target

/-- Multiplication on modelled values (for the spec's `n() * 2` bodies). -/
def valMul : Val → Val → Val
  | Val.int a, Val.int b => Val.int (a * b)
  | _, _ => Val.undef

/-- Evaluation of a user body: `Except` models a thrown exception escaping
the body (the engine catches it at its `try/catch`).  Reads go through the
engine's `sigGet` / `stateGet`, so dependency tracking happens exactly as in
the source. -/
def evalE : Expr → World → (Except Unit Val) × World
  | Expr.num n, w => (Except.ok (Val.int n), w)
  | Expr.undefE, w => (Except.ok Val.undef, w)
  | Expr.fnE b, w => (Except.ok (Val.closure b), w)
  | Expr.getSig s, w =>
      let r := sigGet s w
      (Except.ok r.1, r.2)
  | Expr.getProp p, w =>
      let r := stateGet p w
      (Except.ok (match r.1 with | PropRead.data v => v | _ => Val.undef), r.2)
  | Expr.seq a b, w =>
      match evalE a w with
      | (Except.ok _, w) => evalE b w
      | (Except.error e, w) => (Except.error e, w)
  | Expr.mul a b, w =>
      match evalE a w with
      | (Except.ok va, w) =>
          match evalE b w with
          | (Except.ok vb, w) => (Except.ok (valMul va vb), w)
          | (Except.error e, w) => (Except.error e, w)
      | (Except.error e, w) => (Except.error e, w)
  | Expr.logE e, w =>
      match evalE e w with
      | (Except.ok v, w) => (Except.ok Val.undef, { w with log := w.log ++ [v] })
      | (Except.error e, w) => (Except.error e, w)
  | Expr.throwE, w => (Except.error (), w)

/-- Update one runner's entry. -/
def updRunners (r : Nat) (f : RunnerInfo → RunnerInfo) (w : World) : World :=
  { w with runners := Function.update w.runners r (f (w.runners r)) }

/-- One step of removing a runner's previous subscriptions:
`sigKey.__subs.delete(runner)` for one source. -/
def unsubStep (r : Nat) (w : World) (s : Nat) : World :=
  { w with srcSubs := Function.update w.srcSubs s (setRemove (w.srcSubs s) (Sub.runner r))
           trace := w.trace ++ [Ev.unsub r s] }

/-- The prologue shared by an effect run (signals.js 86-94) and a computed
recompute (141-149): remove all previous subscriptions of this runner (both
directions: each source's `__subs` loses the runner, then the `EFFECT_DEPS`
entry is deleted). -/
def unsubscribeAll (r : Nat) (w : World) : World :=
  match w.deps r with
  | some ds =>
      let w := ds.foldl (unsubStep r) w
      { w with deps := Function.update w.deps r none }
  | none => w

/-- Invoke the previous cleanup if any and clear the slot
(`try { if (typeof cleanup === 'function') cleanup(); } catch ...;
cleanup = null`).  Effects (signals.js 97) and the disposer (124) report the
exception (`console.error`); a computed's recompute (150) swallows it
silently — `reportErr` selects which. -/
def runCleanupSlot (reportErr : Bool) (r : Nat) (w : World) : World :=
  match (w.runners r).cleanup with
  | some e =>
      let w := { w with trace := w.trace ++ [Ev.cleanupRun r] }
      let res := evalE e w
      let w :=
        match res.1 with
        | Except.error _ =>
            if reportErr then { res.2 with errs := res.2.errs + 1, trace := res.2.trace ++ [Ev.report] }
            else res.2
        | Except.ok _ => res.2
      updRunners r (fun i => { i with cleanup := none }) w
  | none => w

/-- Steps (1)-(3) of a run plus invoking `fn` (ghost `calls` bump +
`bodyStart` event): unsubscribe previous dependencies, run the previous
cleanup, push the runner on `EFFECT_STACK`. -/
def prologue (reportCleanupErr : Bool) (r : Nat) (w : World) : World :=
  let w := unsubscribeAll r w
  let w := runCleanupSlot reportCleanupErr r w
  let w := { w with stack := r :: w.stack, trace := w.trace ++ [Ev.push r] }
  updRunners r (fun i => { i with calls := i.calls + 1 })
    { w with trace := w.trace ++ [Ev.bodyStart r] }

/-- Source `runner` of `createEffect` (signals.js 86-110): prologue, run
`fn`; a function result becomes the next cleanup; an exception is caught and
reported (`console.error('createEffect error', err)`); the stack is popped
in `finally`, i.e. in every case. -/
def runRunner (r : Nat) (w : World) : World :=
  let body := (w.runners r).body
  let w := prologue true r w
  match evalE body w with
  | (Except.ok v, w) =>
      let w :=
        match v with
        | Val.closure ce => updRunners r (fun i => { i with cleanup := some ce }) w
        | _ => w
      { w with stack := w.stack.tail, trace := w.trace ++ [Ev.pop r] }
  | (Except.error _, w) =>
      let w := { w with errs := w.errs + 1, trace := w.trace ++ [Ev.report] }
      { w with stack := w.stack.tail, trace := w.trace ++ [Ev.pop r] }

/-- Source `recompute` of `createComputed` (signals.js 141-168): prologue
(cleanup errors swallowed, 150), run `fn`; a function result becomes the
cleanup, otherwise the result is cached; `dirty` is cleared only on success;
exceptions are caught and reported; the stack is popped in `finally`. -/
def recompute (r : Nat) (w : World) : World :=
  let body := (w.runners r).body
  let w := prologue false r w
  match evalE body w with
  | (Except.ok v, w) =>
      let w :=
        match v with
        | Val.closure ce => updRunners r (fun i => { i with cleanup := some ce, dirty := false }) w
        | _ => updRunners r (fun i => { i with cached := v, dirty := false }) w
      { w with stack := w.stack.tail, trace := w.trace ++ [Ev.pop r] }
  | (Except.error _, w) =>
      let w := { w with errs := w.errs + 1, trace := w.trace ++ [Ev.report] }
      { w with stack := w.stack.tail, trace := w.trace ++ [Ev.pop r] }

/-- Invoke one subscriber from a notification snapshot (signals.js 60-62):
a stored runner function is the effect's `runner` or the computed's
`recompute`; a plain callback body is evaluated, its exception caught and
rethrown outside the stack (`setTimeout`), modelled as report. -/
def notifyOne (w : World) (s : Sub) : World :=
  match s with
  | Sub.runner r => if (w.runners r).kind = RKind.computed then recompute r w else runRunner r w
  | Sub.cb c =>
      let w := { w with trace := w.trace ++ [Ev.cbRun c] }
      let res := evalE (w.cbs c) w
      match res.1 with
      | Except.error _ => { res.2 with errs := res.2.errs + 1, trace := res.2.trace ++ [Ev.report] }
      | Except.ok _ => res.2

/-- `Array.from(subs).forEach(...)`: the snapshot list is fixed before the
first invocation. -/
def notifyList (l : List Sub) (w : World) : World :=
  l.foldl notifyOne w

/-- Store a signal's value (`value = ...`, signals.js 52-54). -/
def setSigVal (s : Nat) (v : Val) (w : World) : World :=
  { w with srcVal := Function.update w.srcVal s v }

/-- The argument of `set`: a literal value or an updater function
(`typeof newVal === 'function'` branch, signals.js 51). -/
inductive SetArg where
  | val (v : Val)
  | updater (f : Val → Val)

/-- Source `set` of `createSignal` (signals.js 49-64): compute the next
value (applying an updater to the previous value), store it; if it `===`
the old value return it with no notification; otherwise notify a snapshot
of the subscriber set and return it. -/
def sigSet (s : Nat) (a : SetArg) (w : World) : Val × World :=
  let old := w.srcVal s
  let v := match a with | SetArg.updater f => f old | SetArg.val v => v
  let w := setSigVal s v w
  if old = v then (v, w)
  else (v, notifyList (w.srcSubs s) w)

/-- Source `subscribe` of `createSignal` (signals.js 66-70): add a plain
callback to the signal's subscriber set. -/
def subscribeSig (s : Nat) (body : Expr) (w : World) : Nat × World :=
  (w.fresh,
    { w with cbs := Function.update w.cbs w.fresh body
             srcSubs := Function.update w.srcSubs s (insertUnique (w.srcSubs s) (Sub.cb w.fresh))
             fresh := w.fresh + 1 })

/-- Source `createSignal(initial)` (signals.js 34-73): allocate a fresh
signal holding `initial` with an empty subscriber set. -/
def createSignal (init : Val) (w : World) : Nat × World :=
  (w.fresh, { w with srcVal := Function.update w.srcVal w.fresh init, fresh := w.fresh + 1 })

/-- Source `createEffect(fn)` (signals.js 81-113): allocate the runner and
run it once immediately. -/
def createEffect (body : Expr) (w : World) : Nat × World :=
  let r := w.fresh
  let info : RunnerInfo :=
    { body := body, cleanup := none, kind := RKind.effect
      cached := Val.undef, dirty := true, calls := 0 }
  let w := { w with runners := Function.update w.runners r info, fresh := w.fresh + 1 }
  (r, runRunner r w)

/-- The disposer returned by `createEffect` (signals.js 116-126):
unsubscribe the runner from all recorded dependencies, then invoke the last
cleanup (errors reported, not propagated) and clear it. -/
def disposeEffect (r : Nat) (w : World) : World :=
  let w := unsubscribeAll r w
  runCleanupSlot true r w

/-- Source `createComputed(fn)` (signals.js 134-172): allocate the computed
runner (`cached` starts `undefined`, `dirty` starts `true`) and compute
once immediately. -/
def createComputed (body : Expr) (w : World) : Nat × World :=
  let r := w.fresh
  let info : RunnerInfo :=
    { body := body, cleanup := none, kind := RKind.computed
      cached := Val.undef, dirty := true, calls := 0 }
  let w := { w with runners := Function.update w.runners r info, fresh := w.fresh + 1 }
  (r, recompute r w)

/-- The getter returned by `createComputed` (signals.js 174-177): recompute
if `dirty`, then return the cached value. -/
def computedGet (r : Nat) (w : World) : Val × World :=
  let w := if (w.runners r).dirty then recompute r w else w
  ((w.runners r).cached, w)

/-- Iterated getter calls (for the caching-contract claims). -/
def getN (c : Nat) : Nat → World → World
  | 0, w => w
  | n + 1, w => getN c n (computedGet c w).2

/-- Source `notifyGlobal` of `$state` (signals.js 211-215): invoke every
global subscriber with `(key, oldVal, newVal)` (exceptions reported);
invocations are recorded in the ghost `gcalls` list. -/
def notifyGlobal (k : String) (oldV newV : Val) (w : World) : World :=
  { w with gcalls := w.gcalls ++ w.gsubs.map (fun c => (c, k, oldV, newV)) }

/-- The proxy's `subscribe(fn)` (signals.js 220): add a global mutation
callback. -/
def stateSubscribe (w : World) : Nat × World :=
  (w.fresh, { w with gsubs := w.gsubs ++ [w.fresh], fresh := w.fresh + 1 })

/-- Source `handler.set` of `$state` (signals.js 234-253): read the old raw
value; if `===` the new value, store it and do nothing else; otherwise
store it, notify a snapshot of the property's signal subscribers (if the
property has a signal), then notify the global subscribers.  Note: no
reserved-name interception happens here. -/
def stateSet (p : String) (v : Val) (w : World) : World :=
  let old := (alookup w.target p).getD Val.undef
  if old = v then { w with target := aset w.target p v }
  else
    let w := { w with target := aset w.target p v }
    let w :=
      match alookup w.propSigs p with
      | some sid => notifyList (w.srcSubs sid) w
      | none => w
    notifyGlobal p old v w

/-- Source `handler.deleteProperty` of `$state` (signals.js 255-277): delete
from the raw target; if the property existed, notify the property's signal
subscribers, discard the property's signal from the map, and notify global
subscribers with `newValue = undefined`; otherwise nothing further. -/
def stateDelete (p : String) (w : World) : World :=
  let old := (alookup w.target p).getD Val.undef
  let existed := (alookup w.target p).isSome
  let w := { w with target := aremove w.target p }
  if existed then
    let w :=
      match alookup w.propSigs p with
      | some sid => notifyList (w.srcSubs sid) w
      | none => w
    let w := { w with propSigs := aremove w.propSigs p }
    notifyGlobal p old Val.undef w
  else w

/-- Top-level operations a client of the module can perform, for stating
properties over arbitrary interaction sequences. -/
inductive Cmd where
  | newSignal (v : Val)
  | newEffect (body : Expr)
  | newComputed (body : Expr)
  | getComp (r : Nat)
  | setSig (s : Nat) (v : Val)
  | setSigU (s : Nat) (f : Val → Val)
  | subSig (s : Nat) (body : Expr)
  | dispose (r : Nat)
  | subState
  | putProp (p : String) (v : Val)
  | delProp (p : String)
  | readProp (p : String)
  | readSig (s : Nat)

/-- Run one client operation. -/
def execCmd (w : World) : Cmd → World
  | Cmd.newSignal v => (createSignal v w).2
  | Cmd.newEffect b => (createEffect b w).2
  | Cmd.newComputed b => (createComputed b w).2
  | Cmd.getComp r => (computedGet r w).2
  | Cmd.setSig s v => (sigSet s (SetArg.val v) w).2
  | Cmd.setSigU s f => (sigSet s (SetArg.updater f) w).2
  | Cmd.subSig s b => (subscribeSig s b w).2
  | Cmd.dispose r => disposeEffect r w
  | Cmd.subState => (stateSubscribe w).2
  | Cmd.putProp p v => stateSet p v w
  | Cmd.delProp p => stateDelete p w
  | Cmd.readProp p => (stateGet p w).2
  | Cmd.readSig s => (sigGet s w).2

/-- Run a client interaction sequence. -/
def execCmds (l : List Cmd) (w : World) : World :=
  l.foldl execCmd w

theorem mem_insertUnique {α : Type} [DecidableEq α] (l : List α) (a x : α) :
    x ∈ insertUnique l a ↔ x ∈ l ∨ x = a := by
  by_cases h : a ∈ l
  · simp only [insertUnique, if_pos h]
    constructor
    · exact Or.inl
    · rintro (hx | rfl)
      · exact hx
      · exact h
  · simp [insertUnique, if_neg h]

theorem mem_setRemove {α : Type} [DecidableEq α] (l : List α) (a x : α) :
    x ∈ setRemove l a ↔ x ∈ l ∧ x ≠ a := by
  simp [setRemove, List.mem_filter]

theorem aremove_of_alookup_none {α : Type} {l : List (String × α)} {k : String}
    (h : alookup l k = none) : aremove l k = l := by
  induction l with
  | nil => rfl
  | cons e t ih =>
    by_cases he : e.1 == k
    · simp [alookup, List.find?, he] at h
    · simp only [alookup, List.find?, he] at h
      simp only [aremove, List.filter, he, Bool.not_false]
      rw [show List.filter (fun e => !(e.1 == k)) t = aremove t k from rfl, ih h]

/-- Fields of the world that user-body evaluation can never change: bodies
only read (tracking dependencies), log and return values. -/
def SameEF (w w' : World) : Prop :=
  w'.runners = w.runners ∧ w'.stack = w.stack ∧ w'.trace = w.trace ∧
  w'.errs = w.errs ∧ w'.gcalls = w.gcalls ∧ w'.gsubs = w.gsubs ∧
  w'.srcVal = w.srcVal ∧ w'.target = w.target ∧ w'.cbs = w.cbs

theorem sameEF_refl (w : World) : SameEF w w :=
  ⟨rfl, rfl, rfl, rfl, rfl, rfl, rfl, rfl, rfl⟩

theorem sameEF_trans {w1 w2 w3 : World} (a : SameEF w1 w2) (b : SameEF w2 w3) :
    SameEF w1 w3 :=
  ⟨b.1.trans a.1, b.2.1.trans a.2.1, b.2.2.1.trans a.2.2.1, b.2.2.2.1.trans a.2.2.2.1,
   b.2.2.2.2.1.trans a.2.2.2.2.1, b.2.2.2.2.2.1.trans a.2.2.2.2.2.1,
   b.2.2.2.2.2.2.1.trans a.2.2.2.2.2.2.1, b.2.2.2.2.2.2.2.1.trans a.2.2.2.2.2.2.2.1,
   b.2.2.2.2.2.2.2.2.trans a.2.2.2.2.2.2.2.2⟩

theorem trackDependency_srcSubs (r s : Nat) (w : World) :
    (trackDependency r s w).srcSubs
      = Function.update w.srcSubs s (insertUnique (w.srcSubs s) (Sub.runner r)) := rfl

theorem trackDependency_deps (r s : Nat) (w : World) :
    (trackDependency r s w).deps
      = Function.update w.deps r (some (insertUnique ((w.deps r).getD []) s)) := rfl

theorem trackDependency_sameEF (r s : Nat) (w : World) :
    SameEF w (trackDependency r s w) :=
  ⟨rfl, rfl, rfl, rfl, rfl, rfl, rfl, rfl, rfl⟩

theorem ensurePropSig_sameEF (p : String) (w : World) :
    SameEF w (ensurePropSig p w).2 := by
  cases h : alookup w.propSigs p with
  | none => simp only [ensurePropSig, h]; exact ⟨rfl, rfl, rfl, rfl, rfl, rfl, rfl, rfl, rfl⟩
  | some sid => simp only [ensurePropSig, h]; exact sameEF_refl w

theorem ensurePropSig_srcSubs (p : String) (w : World) :
    ((ensurePropSig p w).2).srcSubs = w.srcSubs := by
  cases h : alookup w.propSigs p with
  | none => simp only [ensurePropSig, h]
  | some sid => simp only [ensurePropSig, h]

theorem ensurePropSig_deps (p : String) (w : World) :
    ((ensurePropSig p w).2).deps = w.deps := by
  cases h : alookup w.propSigs p with
  | none => simp only [ensurePropSig, h]
  | some sid => simp only [ensurePropSig, h]

theorem sigGet_sameEF (s : Nat) (w : World) : SameEF w (sigGet s w).2 := by
  cases h : w.stack with
  | nil => simp only [sigGet, h]; exact sameEF_refl w
  | cons r t => simp only [sigGet, h]; exact trackDependency_sameEF r s w

theorem stateGet_sameEF (p : String) (w : World) : SameEF w (stateGet p w).2 := by
  unfold stateGet
  split_ifs
  · exact sameEF_refl w
  · exact sameEF_refl w
  · exact sameEF_refl w
  · cases h : w.stack with
    | nil => exact sameEF_refl w
    | cons r t =>
        exact sameEF_trans (ensurePropSig_sameEF p w)
          (trackDependency_sameEF r (ensurePropSig p w).1 (ensurePropSig p w).2)

theorem evalE_sameEF : ∀ (e : Expr) (w : World), SameEF w (evalE e w).2 := by
  intro e
  induction e with
  | num n => intro w; exact sameEF_refl w
  | undefE => intro w; exact sameEF_refl w
  | fnE b ih => intro w; exact sameEF_refl w
  | getSig s => intro w; exact sigGet_sameEF s w
  | getProp p => intro w; exact stateGet_sameEF p w
  | seq a b iha ihb =>
    intro w
    simp only [evalE]
    rcases h : evalE a w with ⟨res, w1⟩
    have ha : SameEF w w1 := by
      have := iha w; rw [h] at this; exact this
    cases res with
    | ok v => exact sameEF_trans ha (ihb w1)
    | error e => exact ha
  | mul a b iha ihb =>
    intro w
    simp only [evalE]
    rcases h : evalE a w with ⟨res, w1⟩
    have ha : SameEF w w1 := by
      have := iha w; rw [h] at this; exact this
    cases res with
    | ok va =>
      dsimp only
      rcases h2 : evalE b w1 with ⟨res2, w2⟩
      have hb : SameEF w1 w2 := by
        have := ihb w1; rw [h2] at this; exact this
      cases res2 with
      | ok vb => exact sameEF_trans ha hb
      | error e => exact sameEF_trans ha hb
    | error e => exact ha
  | logE a iha =>
    intro w
    simp only [evalE]
    rcases h : evalE a w with ⟨res, w1⟩
    have ha : SameEF w w1 := by
      have := iha w; rw [h] at this; exact this
    cases res with
    | ok v => exact sameEF_trans ha ⟨rfl, rfl, rfl, rfl, rfl, rfl, rfl, rfl, rfl⟩
    | error e => exact ha
  | throwE => intro w; exact sameEF_refl w

/-- The §3 invariant of the spec: a runner is in a source's subscriber set
exactly when the source is in the runner's recorded dependency set
(`EFFECT_DEPS` entry). -/
def consistent (w : World) : Prop :=
  ∀ r s, Sub.runner r ∈ w.srcSubs s ↔ ∃ l, w.deps r = some l ∧ s ∈ l

theorem consistent_congr {w w' : World} (hs : w'.srcSubs = w.srcSubs)
    (hd : w'.deps = w.deps) (h : consistent w) : consistent w' := by
  intro r s
  rw [hs, hd]
  exact h r s

theorem consistent_trackDependency {w : World} (r s : Nat) (h : consistent w) :
    consistent (trackDependency r s w) := by
  intro r' s'
  rw [trackDependency_srcSubs, trackDependency_deps]
  by_cases hr : r' = r
  · subst hr
    rw [Function.update_same]
    by_cases hs' : s' = s
    · subst hs'
      rw [Function.update_same]
      constructor
      · intro _
        exact ⟨_, rfl, (mem_insertUnique _ _ _).mpr (Or.inr rfl)⟩
      · intro _
        exact (mem_insertUnique _ _ _).mpr (Or.inr rfl)
    · rw [Function.update_noteq hs']
      constructor
      · intro hx
        refine ⟨_, rfl, ?_⟩
        rcases (h r' s').mp hx with ⟨l, hl, hsl⟩
        rw [mem_insertUnique]
        left
        rw [hl]
        exact hsl
      · rintro ⟨l, hl, hsl⟩
        injection hl with hl'
        subst hl'
        rw [mem_insertUnique] at hsl
        rcases hsl with hsl | rfl
        · apply (h r' s').mpr
          cases hd : w.deps r' with
          | none => rw [hd] at hsl; simp at hsl
          | some l0 => rw [hd] at hsl; exact ⟨l0, rfl, hsl⟩
        · exact absurd rfl hs'
  · rw [Function.update_noteq hr]
    by_cases hs' : s' = s
    · subst hs'
      rw [Function.update_same, mem_insertUnique]
      constructor
      · rintro (hx | hx)
        · exact (h r' s').mp hx
        · injection hx with he
          exact absurd he hr
      · intro hx
        exact Or.inl ((h r' s').mpr hx)
    · rw [Function.update_noteq hs']
      exact h r' s'

theorem unsubFold_fields (r : Nat) : ∀ (ds : List Nat) (w : World),
    (ds.foldl (unsubStep r) w).deps = w.deps ∧
    (ds.foldl (unsubStep r) w).runners = w.runners ∧
    (ds.foldl (unsubStep r) w).stack = w.stack ∧
    (ds.foldl (unsubStep r) w).log = w.log ∧
    (ds.foldl (unsubStep r) w).errs = w.errs ∧
    (ds.foldl (unsubStep r) w).gcalls = w.gcalls ∧
    (ds.foldl (unsubStep r) w).gsubs = w.gsubs ∧
    (ds.foldl (unsubStep r) w).srcVal = w.srcVal ∧
    (ds.foldl (unsubStep r) w).target = w.target ∧
    (ds.foldl (unsubStep r) w).cbs = w.cbs ∧
    (ds.foldl (unsubStep r) w).propSigs = w.propSigs ∧
    (ds.foldl (unsubStep r) w).fresh = w.fresh := by
  intro ds
  induction ds with
  | nil =>
    intro w
    exact ⟨rfl, rfl, rfl, rfl, rfl, rfl, rfl, rfl, rfl, rfl, rfl, rfl⟩
  | cons d t ih =>
    intro w
    simp only [List.foldl_cons]
    exact ih (unsubStep r w d)

theorem unsubFold_trace (r : Nat) : ∀ (ds : List Nat) (w : World),
    (ds.foldl (unsubStep r) w).trace = w.trace ++ ds.map (fun s => Ev.unsub r s) := by
  intro ds
  induction ds with
  | nil => intro w; simp
  | cons d t ih =>
    intro w
    simp only [List.foldl_cons, List.map_cons]
    rw [ih (unsubStep r w d)]
    show (w.trace ++ [Ev.unsub r d]) ++ _ = _
    rw [List.append_assoc]
    rfl

theorem unsubFold_mem (r : Nat) (x : Sub) (s : Nat) : ∀ (ds : List Nat) (w : World),
    x ∈ (ds.foldl (unsubStep r) w).srcSubs s ↔
      (x ∈ w.srcSubs s ∧ ¬(x = Sub.runner r ∧ s ∈ ds)) := by
  intro ds
  induction ds with
  | nil => intro w; simp
  | cons d t ih =>
    intro w
    simp only [List.foldl_cons]
    rw [ih (unsubStep r w d)]
    by_cases hs : s = d
    · subst hs
      rw [show (unsubStep r w s).srcSubs s = setRemove (w.srcSubs s) (Sub.runner r) from by
        simp [unsubStep, Function.update_same]]
      rw [mem_setRemove]
      constructor
      · rintro ⟨⟨hx, hne⟩, _⟩
        refine ⟨hx, ?_⟩
        rintro ⟨rfl, _⟩
        exact hne rfl
      · rintro ⟨hx, hn⟩
        refine ⟨⟨hx, ?_⟩, ?_⟩
        · intro he
          exact hn ⟨he, List.mem_cons_self _ _⟩
        · rintro ⟨rfl, ht⟩
          exact hn ⟨rfl, List.mem_cons_of_mem _ ht⟩
    · rw [show (unsubStep r w d).srcSubs s = w.srcSubs s from by
        simp [unsubStep, Function.update_noteq hs]]
      constructor
      · rintro ⟨hx, hn⟩
        refine ⟨hx, ?_⟩
        rintro ⟨rfl, hm⟩
        rcases List.mem_cons.mp hm with h1 | h2
        · exact hs h1
        · exact hn ⟨rfl, h2⟩
      · rintro ⟨hx, hn⟩
        refine ⟨hx, ?_⟩
        rintro ⟨rfl, hm⟩
        exact hn ⟨rfl, List.mem_cons_of_mem _ hm⟩

theorem unsubscribeAll_fields (r : Nat) (w : World) :
    (unsubscribeAll r w).runners = w.runners ∧
    (unsubscribeAll r w).stack = w.stack ∧
    (unsubscribeAll r w).log = w.log ∧
    (unsubscribeAll r w).errs = w.errs ∧
    (unsubscribeAll r w).gcalls = w.gcalls ∧
    (unsubscribeAll r w).gsubs = w.gsubs ∧
    (unsubscribeAll r w).srcVal = w.srcVal ∧
    (unsubscribeAll r w).target = w.target ∧
    (unsubscribeAll r w).cbs = w.cbs ∧
    (unsubscribeAll r w).propSigs = w.propSigs ∧
    (unsubscribeAll r w).fresh = w.fresh := by
  cases hd : w.deps r with
  | none =>
    simp [unsubscribeAll, hd]
  | some ds =>
    simp only [unsubscribeAll, hd]
    have h := unsubFold_fields r ds w
    exact ⟨h.2.1, h.2.2.1, h.2.2.2.1, h.2.2.2.2.1, h.2.2.2.2.2.1, h.2.2.2.2.2.2.1,
      h.2.2.2.2.2.2.2.1, h.2.2.2.2.2.2.2.2.1, h.2.2.2.2.2.2.2.2.2.1,
      h.2.2.2.2.2.2.2.2.2.2.1, h.2.2.2.2.2.2.2.2.2.2.2⟩

theorem unsubscribeAll_deps (r : Nat) (w : World) :
    (unsubscribeAll r w).deps = Function.update w.deps r none := by
  cases hd : w.deps r with
  | none =>
    simp only [unsubscribeAll, hd]
    funext r'
    by_cases hr : r' = r
    · subst hr
      rw [Function.update_same]
      exact hd
    · rw [Function.update_noteq hr]
  | some ds =>
    simp only [unsubscribeAll, hd]
    rw [(unsubFold_fields r ds w).1]

theorem unsubscribeAll_trace (r : Nat) (w : World) :
    (unsubscribeAll r w).trace
      = w.trace ++ ((w.deps r).getD []).map (fun s => Ev.unsub r s) := by
  cases hd : w.deps r with
  | none => simp only [unsubscribeAll, hd]; simp
  | some ds =>
    simp only [unsubscribeAll, hd]
    exact unsubFold_trace r ds w

theorem mem_unsubscribeAll (r : Nat) (x : Sub) (s : Nat) (w : World) :
    x ∈ (unsubscribeAll r w).srcSubs s ↔
      (x ∈ w.srcSubs s ∧ ¬(x = Sub.runner r ∧ s ∈ (w.deps r).getD [])) := by
  cases hd : w.deps r with
  | none => simp [unsubscribeAll, hd]
  | some ds =>
    simp only [unsubscribeAll, hd]
    exact unsubFold_mem r x s ds w

theorem consistent_unsubscribeAll (r : Nat) {w : World} (h : consistent w) :
    consistent (unsubscribeAll r w) := by
  intro r' s
  rw [show (unsubscribeAll r w).deps = Function.update w.deps r none from
    unsubscribeAll_deps r w]
  rw [mem_unsubscribeAll]
  by_cases hr : r' = r
  · subst hr
    rw [Function.update_same]
    constructor
    · rintro ⟨hx, hn⟩
      rcases (h r' s).mp hx with ⟨l, hl, hsl⟩
      refine absurd ⟨rfl, ?_⟩ hn
      rw [hl]
      exact hsl
    · rintro ⟨l, hl, _⟩
      cases hl
  · rw [Function.update_noteq hr]
    constructor
    · rintro ⟨hx, _⟩
      exact (h r' s).mp hx
    · intro hx
      refine ⟨(h r' s).mpr hx, ?_⟩
      rintro ⟨he, _⟩
      injection he with he'
      exact hr he'

/-- A runner removed from every `__subs` set and not on the stack: the state
of an effect after disposal. -/
def absentR (r : Nat) (w : World) : Prop :=
  (∀ s, Sub.runner r ∉ w.srcSubs s) ∧ r ∉ w.stack

theorem absentR_trackDependency {r : Nat} {w : World} (r' s : Nat) (hne : r' ≠ r)
    (h : absentR r w) : absentR r (trackDependency r' s w) := by
  constructor
  · intro s'
    rw [trackDependency_srcSubs]
    by_cases hs : s' = s
    · subst hs
      rw [Function.update_same, mem_insertUnique]
      rintro (hx | hx)
      · exact h.1 s' hx
      · injection hx with he
        exact hne he.symm
    · rw [Function.update_noteq hs]
      exact h.1 s'
  · exact h.2

theorem absentR_sigGet {r : Nat} {w : World} (s : Nat) (h : absentR r w) :
    absentR r (sigGet s w).2 := by
  cases hst : w.stack with
  | nil => simp only [sigGet, hst]; exact h
  | cons r0 t =>
    simp only [sigGet, hst]
    have hne : r0 ≠ r := by
      intro he
      apply h.2
      rw [hst, he]
      exact List.mem_cons_self _ _
    exact absentR_trackDependency r0 s hne h

theorem absentR_congr {r : Nat} {w w' : World} (hs : w'.srcSubs = w.srcSubs)
    (hst : w'.stack = w.stack) (h : absentR r w) : absentR r w' := by
  constructor
  · intro s
    rw [hs]
    exact h.1 s
  · rw [hst]
    exact h.2

theorem absentR_stateGet {r : Nat} {w : World} (p : String) (h : absentR r w) :
    absentR r (stateGet p w).2 := by
  unfold stateGet
  split_ifs
  · exact h
  · exact h
  · exact h
  · cases hst : w.stack with
    | nil => exact h
    | cons r0 t =>
      have hne : r0 ≠ r := by
        intro he
        apply h.2
        rw [hst, he]
        exact List.mem_cons_self _ _
      have h1 : absentR r (ensurePropSig p w).2 :=
        absentR_congr (ensurePropSig_srcSubs p w) (ensurePropSig_sameEF p w).2.1 h
      have h2 : ((ensurePropSig p w).2).stack = r0 :: t := by
        rw [(ensurePropSig_sameEF p w).2.1, hst]
      exact absentR_trackDependency r0 (ensurePropSig p w).1 hne h1

theorem absentR_evalE {r : Nat} : ∀ (e : Expr) (w : World),
    absentR r w → absentR r (evalE e w).2 := by
  intro e
  induction e with
  | num n => intro w h; exact h
  | undefE => intro w h; exact h
  | fnE b ih => intro w h; exact h
  | getSig s => intro w h; exact absentR_sigGet s h
  | getProp p => intro w h; exact absentR_stateGet p h
  | seq a b iha ihb =>
    intro w h
    simp only [evalE]
    rcases hx : evalE a w with ⟨res, w1⟩
    have h1 : absentR r w1 := by
      have := iha w h; rw [hx] at this; exact this
    cases res with
    | ok v => exact ihb w1 h1
    | error e => exact h1
  | mul a b iha ihb =>
    intro w h
    simp only [evalE]
    rcases hx : evalE a w with ⟨res, w1⟩
    have h1 : absentR r w1 := by
      have := iha w h; rw [hx] at this; exact this
    cases res with
    | ok va =>
      dsimp only
      rcases h2 : evalE b w1 with ⟨res2, w2⟩
      have hb : absentR r w2 := by
        have := ihb w1 h1; rw [h2] at this; exact this
      cases res2 with
      | ok vb => exact hb
      | error e => exact hb
    | error e => exact h1
  | logE a iha =>
    intro w h
    simp only [evalE]
    rcases hx : evalE a w with ⟨res, w1⟩
    have h1 : absentR r w1 := by
      have := iha w h; rw [hx] at this; exact this
    cases res with
    | ok v => exact absentR_congr rfl rfl h1
    | error e => exact h1
  | throwE => intro w h; exact h

theorem consistent_sigGet {w : World} (s : Nat) (h : consistent w) :
    consistent (sigGet s w).2 := by
  cases hst : w.stack with
  | nil => simp only [sigGet, hst]; exact h
  | cons r0 t =>
    simp only [sigGet, hst]
    exact consistent_trackDependency r0 s h

theorem consistent_stateGet {w : World} (p : String) (h : consistent w) :
    consistent (stateGet p w).2 := by
  unfold stateGet
  split_ifs
  · exact h
  · exact h
  · exact h
  · cases hst : w.stack with
    | nil => exact h
    | cons r0 t =>
      exact consistent_trackDependency r0 (ensurePropSig p w).1
        (consistent_congr (ensurePropSig_srcSubs p w) (ensurePropSig_deps p w) h)

theorem consistent_evalE : ∀ (e : Expr) (w : World),
    consistent w → consistent (evalE e w).2 := by
  intro e
  induction e with
  | num n => intro w h; exact h
  | undefE => intro w h; exact h
  | fnE b ih => intro w h; exact h
  | getSig s => intro w h; exact consistent_sigGet s h
  | getProp p => intro w h; exact consistent_stateGet p h
  | seq a b iha ihb =>
    intro w h
    simp only [evalE]
    rcases hx : evalE a w with ⟨res, w1⟩
    have h1 : consistent w1 := by
      have := iha w h; rw [hx] at this; exact this
    cases res with
    | ok v => exact ihb w1 h1
    | error e => exact h1
  | mul a b iha ihb =>
    intro w h
    simp only [evalE]
    rcases hx : evalE a w with ⟨res, w1⟩
    have h1 : consistent w1 := by
      have := iha w h; rw [hx] at this; exact this
    cases res with
    | ok va =>
      dsimp only
      rcases h2 : evalE b w1 with ⟨res2, w2⟩
      have hb : consistent w2 := by
        have := ihb w1 h1; rw [h2] at this; exact this
      cases res2 with
      | ok vb => exact hb
      | error e => exact hb
    | error e => exact h1
  | logE a iha =>
    intro w h
    simp only [evalE]
    rcases hx : evalE a w with ⟨res, w1⟩
    have h1 : consistent w1 := by
      have := iha w h; rw [hx] at this; exact this
    cases res with
    | ok v => exact consistent_congr rfl rfl h1
    | error e => exact h1
  | throwE => intro w h; exact h

theorem runCleanupSlot_spec (b : Bool) (r : Nat) (w : World) :
    ∃ d,
      (runCleanupSlot b r w).stack = w.stack ∧
      (runCleanupSlot b r w).gcalls = w.gcalls ∧
      (runCleanupSlot b r w).gsubs = w.gsubs ∧
      (runCleanupSlot b r w).srcVal = w.srcVal ∧
      (runCleanupSlot b r w).target = w.target ∧
      (runCleanupSlot b r w).cbs = w.cbs ∧
      (runCleanupSlot b r w).runners
        = Function.update w.runners r { w.runners r with cleanup := none } ∧
      (runCleanupSlot b r w).trace = w.trace ++ d ∧
      ((w.runners r).cleanup = none → d = []) ∧
      (∀ e, (w.runners r).cleanup = some e → ∃ t, d = Ev.cleanupRun r :: t) := by
  cases hc : (w.runners r).cleanup with
  | none =>
    have hwid : runCleanupSlot b r w = w := by
      simp only [runCleanupSlot, hc]
    have hid : ({ w.runners r with cleanup := none } : RunnerInfo) = w.runners r := by
      rcases hw : w.runners r with ⟨bo, cl, k, ca, di, cal⟩
      rw [hw] at hc
      simp only at hc
      subst hc
      rfl
    refine ⟨[], ?_, ?_, ?_, ?_, ?_, ?_, ?_, ?_, fun _ => rfl, fun e he => nomatch he⟩
    · rw [hwid]
    · rw [hwid]
    · rw [hwid]
    · rw [hwid]
    · rw [hwid]
    · rw [hwid]
    · rw [hwid, hid, Function.update_eq_self]
    · rw [hwid]
      simp
  | some e0 =>
    simp only [runCleanupSlot, hc]
    rcases hev : evalE e0 { w with trace := w.trace ++ [Ev.cleanupRun r] } with ⟨res, w2⟩
    have hef : SameEF { w with trace := w.trace ++ [Ev.cleanupRun r] } w2 := by
      have := evalE_sameEF e0 { w with trace := w.trace ++ [Ev.cleanupRun r] }
      rw [hev] at this
      exact this
    cases res with
    | ok v =>
      refine ⟨[Ev.cleanupRun r], hef.2.1, hef.2.2.2.2.1, hef.2.2.2.2.2.1,
        hef.2.2.2.2.2.2.1, hef.2.2.2.2.2.2.2.1, hef.2.2.2.2.2.2.2.2, ?_,
        hef.2.2.1, ?_, fun e1 _ => ⟨[], rfl⟩⟩
      · show Function.update w2.runners r { w2.runners r with cleanup := none } = _
        rw [hef.1]
      · intro h
        simp at h
    | error ev =>
      cases b with
      | false =>
        refine ⟨[Ev.cleanupRun r], hef.2.1, hef.2.2.2.2.1, hef.2.2.2.2.2.1,
          hef.2.2.2.2.2.2.1, hef.2.2.2.2.2.2.2.1, hef.2.2.2.2.2.2.2.2, ?_,
          hef.2.2.1, ?_, fun e1 _ => ⟨[], rfl⟩⟩
        · show Function.update w2.runners r { w2.runners r with cleanup := none } = _
          rw [hef.1]
        · intro h
          simp at h
      | true =>
        refine ⟨[Ev.cleanupRun r, Ev.report], hef.2.1, hef.2.2.2.2.1, hef.2.2.2.2.2.1,
          hef.2.2.2.2.2.2.1, hef.2.2.2.2.2.2.2.1, hef.2.2.2.2.2.2.2.2, ?_, ?_,
          ?_, fun e1 _ => ⟨[Ev.report], rfl⟩⟩
        · show Function.update w2.runners r { w2.runners r with cleanup := none } = _
          rw [hef.1]
        · show w2.trace ++ [Ev.report] = w.trace ++ [Ev.cleanupRun r, Ev.report]
          rw [hef.2.2.1]
          show (w.trace ++ [Ev.cleanupRun r]) ++ [Ev.report] = _
          rw [List.append_assoc]
          rfl
        · intro h
          simp at h

theorem consistent_runCleanupSlot (b : Bool) (r : Nat) {w : World} (h : consistent w) :
    consistent (runCleanupSlot b r w) := by
  cases hc : (w.runners r).cleanup with
  | none => simp only [runCleanupSlot, hc]; exact h
  | some e0 =>
    simp only [runCleanupSlot, hc]
    rcases hev : evalE e0 { w with trace := w.trace ++ [Ev.cleanupRun r] } with ⟨res, w2⟩
    have h2 : consistent w2 := by
      have := consistent_evalE e0 { w with trace := w.trace ++ [Ev.cleanupRun r] }
        (consistent_congr rfl rfl h)
      rw [hev] at this
      exact this
    cases res with
    | ok v => exact consistent_congr rfl rfl h2
    | error ev => cases b <;> exact consistent_congr rfl rfl h2

theorem absentR_runCleanupSlot (b : Bool) (r' : Nat) {r : Nat} {w : World}
    (h : absentR r w) : absentR r (runCleanupSlot b r' w) := by
  cases hc : (w.runners r').cleanup with
  | none => simp only [runCleanupSlot, hc]; exact h
  | some e0 =>
    simp only [runCleanupSlot, hc]
    rcases hev : evalE e0 { w with trace := w.trace ++ [Ev.cleanupRun r'] } with ⟨res, w2⟩
    have h2 : absentR r w2 := by
      have := absentR_evalE e0 { w with trace := w.trace ++ [Ev.cleanupRun r'] }
        (absentR_congr rfl rfl h)
      rw [hev] at this
      exact this
    cases res with
    | ok v => exact absentR_congr rfl rfl h2
    | error ev => cases b <;> exact absentR_congr rfl rfl h2

theorem prologue_stack (b : Bool) (r : Nat) (w : World) :
    (prologue b r w).stack = r :: w.stack := by
  obtain ⟨d, hst, _⟩ := runCleanupSlot_spec b r (unsubscribeAll r w)
  show r :: (runCleanupSlot b r (unsubscribeAll r w)).stack = r :: w.stack
  rw [hst, (unsubscribeAll_fields r w).2.1]

theorem prologue_runners (b : Bool) (r : Nat) (w : World) :
    (prologue b r w).runners
      = Function.update w.runners r
          { w.runners r with cleanup := none, calls := (w.runners r).calls + 1 } := by
  obtain ⟨d, _, _, _, _, _, _, hrun, _⟩ := runCleanupSlot_spec b r (unsubscribeAll r w)
  show Function.update (runCleanupSlot b r (unsubscribeAll r w)).runners r
      { (runCleanupSlot b r (unsubscribeAll r w)).runners r with
        calls := ((runCleanupSlot b r (unsubscribeAll r w)).runners r).calls + 1 } = _
  rw [hrun, (unsubscribeAll_fields r w).1, Function.update_idem, Function.update_same]

theorem prologue_trace (b : Bool) (r : Nat) (w : World) :
    ∃ c, (prologue b r w).trace
        = w.trace ++ ((w.deps r).getD []).map (fun s => Ev.unsub r s)
            ++ c ++ [Ev.push r, Ev.bodyStart r]
      ∧ ((w.runners r).cleanup = none → c = [])
      ∧ (∀ e, (w.runners r).cleanup = some e → ∃ t, c = Ev.cleanupRun r :: t) := by
  obtain ⟨d, _, _, _, _, _, _, _, htr, hnone, hsome⟩ :=
    runCleanupSlot_spec b r (unsubscribeAll r w)
  refine ⟨d, ?_, ?_, ?_⟩
  · show ((runCleanupSlot b r (unsubscribeAll r w)).trace ++ [Ev.push r]) ++ [Ev.bodyStart r] = _
    rw [htr, unsubscribeAll_trace]
    simp [List.append_assoc]
  · intro h
    apply hnone
    rw [(unsubscribeAll_fields r w).1]
    exact h
  · intro e he
    apply hsome
    rw [(unsubscribeAll_fields r w).1]
    exact he

theorem prologue_quiet (b : Bool) (r : Nat) (w : World) :
    (prologue b r w).gcalls = w.gcalls ∧ (prologue b r w).gsubs = w.gsubs ∧
    (prologue b r w).srcVal = w.srcVal ∧ (prologue b r w).target = w.target ∧
    (prologue b r w).cbs = w.cbs := by
  obtain ⟨d, _, hg, hgs, hsv, htg, hcb, _⟩ := runCleanupSlot_spec b r (unsubscribeAll r w)
  have hu := unsubscribeAll_fields r w
  exact ⟨hg.trans hu.2.2.2.2.1, hgs.trans hu.2.2.2.2.2.1, hsv.trans hu.2.2.2.2.2.2.1,
    htg.trans hu.2.2.2.2.2.2.2.1, hcb.trans hu.2.2.2.2.2.2.2.2.1⟩

theorem consistent_prologue (b : Bool) (r : Nat) {w : World} (h : consistent w) :
    consistent (prologue b r w) :=
  consistent_congr rfl rfl
    (consistent_runCleanupSlot b r (consistent_unsubscribeAll r h))

theorem absentR_unsubscribeAll (r' : Nat) {r : Nat} {w : World} (h : absentR r w) :
    absentR r (unsubscribeAll r' w) := by
  constructor
  · intro s hx
    rw [mem_unsubscribeAll] at hx
    exact h.1 s hx.1
  · rw [(unsubscribeAll_fields r' w).2.1]
    exact h.2

theorem not_mem_tail {α : Type} {a : α} {l : List α} (h : a ∉ l) : a ∉ l.tail := by
  cases l with
  | nil => simp
  | cons x t =>
    intro ht
    exact h (List.mem_cons_of_mem _ ht)

theorem absentR_prologue (b : Bool) {r' r : Nat} {w : World} (hne : r' ≠ r)
    (h : absentR r w) : absentR r (prologue b r' w) := by
  have h1 : absentR r (runCleanupSlot b r' (unsubscribeAll r' w)) :=
    absentR_runCleanupSlot b r' (absentR_unsubscribeAll r' h)
  constructor
  · intro s
    exact h1.1 s
  · show r ∉ r' :: (runCleanupSlot b r' (unsubscribeAll r' w)).stack
    intro hm
    rcases List.mem_cons.mp hm with h2 | h2
    · exact hne h2.symm
    · exact h1.2 h2

theorem runRunner_stack (r : Nat) (w : World) : (runRunner r w).stack = w.stack := by
  simp only [runRunner]
  rcases hev : evalE (w.runners r).body (prologue true r w) with ⟨res, w2⟩
  have hef : SameEF (prologue true r w) w2 := by
    have := evalE_sameEF (w.runners r).body (prologue true r w)
    rw [hev] at this
    exact this
  have hst : w2.stack = r :: w.stack := by
    rw [hef.2.1, prologue_stack]
  have ht : w2.stack.tail = w.stack := by rw [hst, List.tail_cons]
  cases res with
  | ok v => cases v <;> exact ht
  | error ev => exact ht

theorem recompute_stack (r : Nat) (w : World) : (recompute r w).stack = w.stack := by
  simp only [recompute]
  rcases hev : evalE (w.runners r).body (prologue false r w) with ⟨res, w2⟩
  have hef : SameEF (prologue false r w) w2 := by
    have := evalE_sameEF (w.runners r).body (prologue false r w)
    rw [hev] at this
    exact this
  have hst : w2.stack = r :: w.stack := by
    rw [hef.2.1, prologue_stack]
  have ht : w2.stack.tail = w.stack := by rw [hst, List.tail_cons]
  cases res with
  | ok v => cases v <;> exact ht
  | error ev => exact ht

theorem runRunner_runners_ne {r' r : Nat} (w : World) (hne : r' ≠ r) :
    (runRunner r w).runners r' = w.runners r' := by
  simp only [runRunner]
  rcases hev : evalE (w.runners r).body (prologue true r w) with ⟨res, w2⟩
  have hef : SameEF (prologue true r w) w2 := by
    have := evalE_sameEF (w.runners r).body (prologue true r w)
    rw [hev] at this
    exact this
  have base : w2.runners r' = w.runners r' := by
    rw [hef.1, prologue_runners, Function.update_noteq hne]
  cases res with
  | ok v =>
    cases v with
    | closure ce =>
      show (Function.update w2.runners r _) r' = _
      rw [Function.update_noteq hne]
      exact base
    | undef => exact base
    | int n => exact base
    | str s => exact base
  | error ev => exact base

theorem recompute_runners_ne {r' r : Nat} (w : World) (hne : r' ≠ r) :
    (recompute r w).runners r' = w.runners r' := by
  simp only [recompute]
  rcases hev : evalE (w.runners r).body (prologue false r w) with ⟨res, w2⟩
  have hef : SameEF (prologue false r w) w2 := by
    have := evalE_sameEF (w.runners r).body (prologue false r w)
    rw [hev] at this
    exact this
  have base : w2.runners r' = w.runners r' := by
    rw [hef.1, prologue_runners, Function.update_noteq hne]
  cases res with
  | ok v =>
    cases v with
    | closure ce =>
      show (Function.update w2.runners r _) r' = _
      rw [Function.update_noteq hne]
      exact base
    | undef =>
      show (Function.update w2.runners r _) r' = _
      rw [Function.update_noteq hne]
      exact base
    | int n =>
      show (Function.update w2.runners r _) r' = _
      rw [Function.update_noteq hne]
      exact base
    | str s =>
      show (Function.update w2.runners r _) r' = _
      rw [Function.update_noteq hne]
      exact base
  | error ev => exact base

theorem runRunner_calls (r : Nat) (w : World) :
    ((runRunner r w).runners r).calls = (w.runners r).calls + 1 := by
  simp only [runRunner]
  rcases hev : evalE (w.runners r).body (prologue true r w) with ⟨res, w2⟩
  have hef : SameEF (prologue true r w) w2 := by
    have := evalE_sameEF (w.runners r).body (prologue true r w)
    rw [hev] at this
    exact this
  have base : w2.runners r
      = { w.runners r with cleanup := none, calls := (w.runners r).calls + 1 } := by
    rw [hef.1, prologue_runners, Function.update_same]
  cases res with
  | ok v =>
    cases v with
    | closure ce =>
      show ((Function.update w2.runners r { w2.runners r with cleanup := some ce }) r).calls = _
      rw [Function.update_same, base]
    | undef => show (w2.runners r).calls = _; rw [base]
    | int n => show (w2.runners r).calls = _; rw [base]
    | str s => show (w2.runners r).calls = _; rw [base]
  | error ev => show (w2.runners r).calls = _; rw [base]

theorem recompute_calls (r : Nat) (w : World) :
    ((recompute r w).runners r).calls = (w.runners r).calls + 1 := by
  simp only [recompute]
  rcases hev : evalE (w.runners r).body (prologue false r w) with ⟨res, w2⟩
  have hef : SameEF (prologue false r w) w2 := by
    have := evalE_sameEF (w.runners r).body (prologue false r w)
    rw [hev] at this
    exact this
  have base : w2.runners r
      = { w.runners r with cleanup := none, calls := (w.runners r).calls + 1 } := by
    rw [hef.1, prologue_runners, Function.update_same]
  cases res with
  | ok v =>
    cases v with
    | closure ce =>
      show ((Function.update w2.runners r
        { w2.runners r with cleanup := some ce, dirty := false }) r).calls = _
      rw [Function.update_same, base]
    | undef =>
      show ((Function.update w2.runners r
        { w2.runners r with cached := Val.undef, dirty := false }) r).calls = _
      rw [Function.update_same, base]
    | int n =>
      show ((Function.update w2.runners r
        { w2.runners r with cached := Val.int n, dirty := false }) r).calls = _
      rw [Function.update_same, base]
    | str s =>
      show ((Function.update w2.runners r
        { w2.runners r with cached := Val.str s, dirty := false }) r).calls = _
      rw [Function.update_same, base]
  | error ev => show (w2.runners r).calls = _; rw [base]

theorem runRunner_quiet (r : Nat) (w : World) :
    (runRunner r w).gcalls = w.gcalls ∧ (runRunner r w).gsubs = w.gsubs ∧
    (runRunner r w).srcVal = w.srcVal ∧ (runRunner r w).target = w.target ∧
    (runRunner r w).cbs = w.cbs := by
  simp only [runRunner]
  rcases hev : evalE (w.runners r).body (prologue true r w) with ⟨res, w2⟩
  have hef : SameEF (prologue true r w) w2 := by
    have := evalE_sameEF (w.runners r).body (prologue true r w)
    rw [hev] at this
    exact this
  have hq := prologue_quiet true r w
  have hg : w2.gcalls = w.gcalls := hef.2.2.2.2.1.trans hq.1
  have hgs : w2.gsubs = w.gsubs := hef.2.2.2.2.2.1.trans hq.2.1
  have hsv : w2.srcVal = w.srcVal := hef.2.2.2.2.2.2.1.trans hq.2.2.1
  have htg : w2.target = w.target := hef.2.2.2.2.2.2.2.1.trans hq.2.2.2.1
  have hcb : w2.cbs = w.cbs := hef.2.2.2.2.2.2.2.2.trans hq.2.2.2.2
  cases res with
  | ok v => cases v <;> exact ⟨hg, hgs, hsv, htg, hcb⟩
  | error ev => exact ⟨hg, hgs, hsv, htg, hcb⟩

theorem recompute_quiet (r : Nat) (w : World) :
    (recompute r w).gcalls = w.gcalls ∧ (recompute r w).gsubs = w.gsubs ∧
    (recompute r w).srcVal = w.srcVal ∧ (recompute r w).target = w.target ∧
    (recompute r w).cbs = w.cbs := by
  simp only [recompute]
  rcases hev : evalE (w.runners r).body (prologue false r w) with ⟨res, w2⟩
  have hef : SameEF (prologue false r w) w2 := by
    have := evalE_sameEF (w.runners r).body (prologue false r w)
    rw [hev] at this
    exact this
  have hq := prologue_quiet false r w
  have hg : w2.gcalls = w.gcalls := hef.2.2.2.2.1.trans hq.1
  have hgs : w2.gsubs = w.gsubs := hef.2.2.2.2.2.1.trans hq.2.1
  have hsv : w2.srcVal = w.srcVal := hef.2.2.2.2.2.2.1.trans hq.2.2.1
  have htg : w2.target = w.target := hef.2.2.2.2.2.2.2.1.trans hq.2.2.2.1
  have hcb : w2.cbs = w.cbs := hef.2.2.2.2.2.2.2.2.trans hq.2.2.2.2
  cases res with
  | ok v => cases v <;> exact ⟨hg, hgs, hsv, htg, hcb⟩
  | error ev => exact ⟨hg, hgs, hsv, htg, hcb⟩

theorem consistent_runRunner (r : Nat) {w : World} (h : consistent w) :
    consistent (runRunner r w) := by
  simp only [runRunner]
  rcases hev : evalE (w.runners r).body (prologue true r w) with ⟨res, w2⟩
  have h2 : consistent w2 := by
    have := consistent_evalE (w.runners r).body (prologue true r w)
      (consistent_prologue true r h)
    rw [hev] at this
    exact this
  cases res with
  | ok v => cases v <;> exact consistent_congr rfl rfl h2
  | error ev => exact consistent_congr rfl rfl h2

theorem consistent_recompute (r : Nat) {w : World} (h : consistent w) :
    consistent (recompute r w) := by
  simp only [recompute]
  rcases hev : evalE (w.runners r).body (prologue false r w) with ⟨res, w2⟩
  have h2 : consistent w2 := by
    have := consistent_evalE (w.runners r).body (prologue false r w)
      (consistent_prologue false r h)
    rw [hev] at this
    exact this
  cases res with
  | ok v => cases v <;> exact consistent_congr rfl rfl h2
  | error ev => exact consistent_congr rfl rfl h2

theorem absentR_runRunner {r0 r : Nat} {w : World} (hne : r0 ≠ r) (h : absentR r w) :
    absentR r (runRunner r0 w) := by
  simp only [runRunner]
  rcases hev : evalE (w.runners r0).body (prologue true r0 w) with ⟨res, w2⟩
  have h2 : absentR r w2 := by
    have := absentR_evalE (w.runners r0).body (prologue true r0 w)
      (absentR_prologue true hne h)
    rw [hev] at this
    exact this
  have hsubs := h2.1
  have hstk := not_mem_tail h2.2
  cases res with
  | ok v => cases v <;> exact ⟨hsubs, hstk⟩
  | error ev => exact ⟨hsubs, hstk⟩

theorem absentR_recompute {r0 r : Nat} {w : World} (hne : r0 ≠ r) (h : absentR r w) :
    absentR r (recompute r0 w) := by
  simp only [recompute]
  rcases hev : evalE (w.runners r0).body (prologue false r0 w) with ⟨res, w2⟩
  have h2 : absentR r w2 := by
    have := absentR_evalE (w.runners r0).body (prologue false r0 w)
      (absentR_prologue false hne h)
    rw [hev] at this
    exact this
  have hsubs := h2.1
  have hstk := not_mem_tail h2.2
  cases res with
  | ok v => cases v <;> exact ⟨hsubs, hstk⟩
  | error ev => exact ⟨hsubs, hstk⟩

theorem consistent_notifyOne {w : World} (h : consistent w) (x : Sub) :
    consistent (notifyOne w x) := by
  cases x with
  | runner r0 =>
    simp only [notifyOne]
    by_cases hk : (w.runners r0).kind = RKind.computed
    · rw [if_pos hk]
      exact consistent_recompute r0 h
    · rw [if_neg hk]
      exact consistent_runRunner r0 h
  | cb c =>
    simp only [notifyOne]
    rcases hev : evalE (w.cbs c)
        { w with trace := w.trace ++ [Ev.cbRun c] } with ⟨res, w2⟩
    have h2 : consistent w2 := by
      have := consistent_evalE (w.cbs c)
        { w with trace := w.trace ++ [Ev.cbRun c] } (consistent_congr rfl rfl h)
      rw [hev] at this
      exact this
    cases res with
    | ok v => exact consistent_congr rfl rfl h2
    | error ev => exact consistent_congr rfl rfl h2

theorem absentR_notifyOne {r : Nat} {w : World} {x : Sub} (hx : x ≠ Sub.runner r)
    (h : absentR r w) : absentR r (notifyOne w x) := by
  cases x with
  | runner r0 =>
    have hne : r0 ≠ r := by
      intro he
      exact hx (by rw [he])
    simp only [notifyOne]
    by_cases hk : (w.runners r0).kind = RKind.computed
    · rw [if_pos hk]
      exact absentR_recompute hne h
    · rw [if_neg hk]
      exact absentR_runRunner hne h
  | cb c =>
    simp only [notifyOne]
    rcases hev : evalE (w.cbs c)
        { w with trace := w.trace ++ [Ev.cbRun c] } with ⟨res, w2⟩
    have h2 : absentR r w2 := by
      have := absentR_evalE (w.cbs c)
        { w with trace := w.trace ++ [Ev.cbRun c] } (absentR_congr rfl rfl h)
      rw [hev] at this
      exact this
    cases res with
    | ok v => exact absentR_congr rfl rfl h2
    | error ev => exact absentR_congr rfl rfl h2

theorem notifyOne_runnersAt {r : Nat} {w : World} {x : Sub} (hx : x ≠ Sub.runner r) :
    (notifyOne w x).runners r = w.runners r := by
  cases x with
  | runner r0 =>
    have hne : r0 ≠ r := by
      intro he
      exact hx (by rw [he])
    simp only [notifyOne]
    by_cases hk : (w.runners r0).kind = RKind.computed
    · rw [if_pos hk]
      exact recompute_runners_ne w (fun he => hne he.symm)
    · rw [if_neg hk]
      exact runRunner_runners_ne w (fun he => hne he.symm)
  | cb c =>
    simp only [notifyOne]
    rcases hev : evalE (w.cbs c)
        { w with trace := w.trace ++ [Ev.cbRun c] } with ⟨res, w2⟩
    have hef : SameEF { w with trace := w.trace ++ [Ev.cbRun c] } w2 := by
      have := evalE_sameEF (w.cbs c)
        { w with trace := w.trace ++ [Ev.cbRun c] }
      rw [hev] at this
      exact this
    have base : w2.runners r = w.runners r := by rw [hef.1]
    cases res with
    | ok v => exact base
    | error ev => exact base

theorem notifyOne_quiet (w : World) (x : Sub) :
    (notifyOne w x).gcalls = w.gcalls ∧ (notifyOne w x).gsubs = w.gsubs ∧
    (notifyOne w x).srcVal = w.srcVal ∧ (notifyOne w x).target = w.target ∧
    (notifyOne w x).cbs = w.cbs := by
  cases x with
  | runner r0 =>
    simp only [notifyOne]
    by_cases hk : (w.runners r0).kind = RKind.computed
    · rw [if_pos hk]
      exact recompute_quiet r0 w
    · rw [if_neg hk]
      exact runRunner_quiet r0 w
  | cb c =>
    simp only [notifyOne]
    rcases hev : evalE (w.cbs c)
        { w with trace := w.trace ++ [Ev.cbRun c] } with ⟨res, w2⟩
    have hef : SameEF { w with trace := w.trace ++ [Ev.cbRun c] } w2 := by
      have := evalE_sameEF (w.cbs c)
        { w with trace := w.trace ++ [Ev.cbRun c] }
      rw [hev] at this
      exact this
    have hall : w2.gcalls = w.gcalls ∧ w2.gsubs = w.gsubs ∧ w2.srcVal = w.srcVal ∧
        w2.target = w.target ∧ w2.cbs = w.cbs :=
      ⟨hef.2.2.2.2.1, hef.2.2.2.2.2.1, hef.2.2.2.2.2.2.1, hef.2.2.2.2.2.2.2.1,
        hef.2.2.2.2.2.2.2.2⟩
    cases res with
    | ok v => exact hall
    | error ev => exact hall

theorem consistent_notifyList : ∀ (l : List Sub) (w : World),
    consistent w → consistent (notifyList l w) := by
  intro l
  induction l with
  | nil => intro w h; exact h
  | cons x t ih =>
    intro w h
    exact ih (notifyOne w x) (consistent_notifyOne h x)

theorem absentR_notifyList {r : Nat} : ∀ (l : List Sub) (w : World),
    absentR r w → (∀ x ∈ l, x ≠ Sub.runner r) → absentR r (notifyList l w) := by
  intro l
  induction l with
  | nil => intro w h _; exact h
  | cons x t ih =>
    intro w h hl
    exact ih (notifyOne w x)
      (absentR_notifyOne (hl x (List.mem_cons_self _ _)) h)
      (fun y hy => hl y (List.mem_cons_of_mem _ hy))

theorem notifyList_runnersAt {r : Nat} : ∀ (l : List Sub) (w : World),
    (∀ x ∈ l, x ≠ Sub.runner r) → (notifyList l w).runners r = w.runners r := by
  intro l
  induction l with
  | nil => intro w _; rfl
  | cons x t ih =>
    intro w hl
    have h1 := notifyOne_runnersAt (w := w) (hl x (List.mem_cons_self _ _))
    have h2 := ih (notifyOne w x) (fun y hy => hl y (List.mem_cons_of_mem _ hy))
    exact h2.trans h1

theorem notifyList_quiet : ∀ (l : List Sub) (w : World),
    (notifyList l w).gcalls = w.gcalls ∧ (notifyList l w).gsubs = w.gsubs ∧
    (notifyList l w).srcVal = w.srcVal ∧ (notifyList l w).target = w.target ∧
    (notifyList l w).cbs = w.cbs := by
  intro l
  induction l with
  | nil => intro w; exact ⟨rfl, rfl, rfl, rfl, rfl⟩
  | cons x t ih =>
    intro w
    have h1 := notifyOne_quiet w x
    have h2 := ih (notifyOne w x)
    exact ⟨h2.1.trans h1.1, h2.2.1.trans h1.2.1, h2.2.2.1.trans h1.2.2.1,
      h2.2.2.2.1.trans h1.2.2.2.1, h2.2.2.2.2.trans h1.2.2.2.2⟩

theorem consistent_sigSet (s : Nat) (a : SetArg) {w : World} (h : consistent w) :
    consistent (sigSet s a w).2 := by
  have h1 : consistent (setSigVal s
      (match a with | SetArg.updater f => f (w.srcVal s) | SetArg.val v => v) w) :=
    consistent_congr rfl rfl h
  simp only [sigSet]
  split
  · exact h1
  · exact consistent_notifyList _ _ h1

theorem consistent_subscribeSig (s : Nat) (e : Expr) {w : World} (h : consistent w) :
    consistent (subscribeSig s e w).2 := by
  intro r' s'
  simp only [subscribeSig]
  by_cases hs : s' = s
  · subst hs
    rw [Function.update_same, mem_insertUnique]
    constructor
    · rintro (hx | hx)
      · exact (h r' s').mp hx
      · exact Sub.noConfusion hx
    · intro hx
      exact Or.inl ((h r' s').mpr hx)
  · rw [Function.update_noteq hs]
    exact h r' s'

theorem consistent_createSignal (v : Val) {w : World} (h : consistent w) :
    consistent (createSignal v w).2 :=
  consistent_congr rfl rfl h

theorem consistent_createEffect (e : Expr) {w : World} (h : consistent w) :
    consistent (createEffect e w).2 := by
  simp only [createEffect]
  exact consistent_runRunner _ (consistent_congr rfl rfl h)

theorem consistent_createComputed (e : Expr) {w : World} (h : consistent w) :
    consistent (createComputed e w).2 := by
  simp only [createComputed]
  exact consistent_recompute _ (consistent_congr rfl rfl h)

theorem consistent_computedGet (r : Nat) {w : World} (h : consistent w) :
    consistent (computedGet r w).2 := by
  simp only [computedGet]
  split
  · exact consistent_recompute r h
  · exact h

theorem consistent_disposeEffect (r : Nat) {w : World} (h : consistent w) :
    consistent (disposeEffect r w) :=
  consistent_runCleanupSlot true r (consistent_unsubscribeAll r h)

theorem consistent_stateSubscribe {w : World} (h : consistent w) :
    consistent (stateSubscribe w).2 :=
  consistent_congr rfl rfl h

theorem consistent_stateSet (p : String) (v : Val) {w : World} (h : consistent w) :
    consistent (stateSet p v w) := by
  simp only [stateSet]
  split
  · exact consistent_congr rfl rfl h
  · cases halk : alookup w.propSigs p with
    | some sid =>
      exact consistent_congr rfl rfl
        (consistent_notifyList _ _ (consistent_congr rfl rfl h))
    | none => exact consistent_congr rfl rfl h

theorem consistent_stateDelete (p : String) {w : World} (h : consistent w) :
    consistent (stateDelete p w) := by
  simp only [stateDelete]
  split
  · cases halk : alookup w.propSigs p with
    | some sid =>
      exact consistent_congr rfl rfl
        (consistent_congr rfl rfl
          (consistent_notifyList _ _ (consistent_congr rfl rfl h)))
    | none => exact consistent_congr rfl rfl h
  · exact consistent_congr rfl rfl h

theorem consistent_execCmd (c : Cmd) {w : World} (h : consistent w) :
    consistent (execCmd w c) := by
  cases c with
  | newSignal v => exact consistent_createSignal v h
  | newEffect b => exact consistent_createEffect b h
  | newComputed b => exact consistent_createComputed b h
  | getComp r => exact consistent_computedGet r h
  | setSig s v => exact consistent_sigSet s (SetArg.val v) h
  | setSigU s f => exact consistent_sigSet s (SetArg.updater f) h
  | subSig s b => exact consistent_subscribeSig s b h
  | dispose r => exact consistent_disposeEffect r h
  | subState => exact consistent_stateSubscribe h
  | putProp p v => exact consistent_stateSet p v h
  | delProp p => exact consistent_stateDelete p h
  | readProp p => exact consistent_stateGet p h
  | readSig s => exact consistent_sigGet s h

theorem consistent_initWorld : consistent initWorld := by
  intro r s
  simp [initWorld]

theorem consistent_execCmds_of : ∀ (l : List Cmd) (w : World),
    consistent w → consistent (execCmds l w) := by
  intro l
  induction l with
  | nil => intro w h; exact h
  | cons c t ih =>
    intro w h
    exact ih (execCmd w c) (consistent_execCmd c h)

theorem consistent_execCmds (l : List Cmd) : consistent (execCmds l initWorld) :=
  consistent_execCmds_of l initWorld consistent_initWorld

theorem evalE_stackEmpty : ∀ (e : Expr) (w : World), w.stack = [] →
    (evalE e w).2.srcSubs = w.srcSubs ∧ (evalE e w).2.deps = w.deps := by
  intro e
  induction e with
  | num n => intro w _; exact ⟨rfl, rfl⟩
  | undefE => intro w _; exact ⟨rfl, rfl⟩
  | fnE b ih => intro w _; exact ⟨rfl, rfl⟩
  | getSig s =>
    intro w h
    constructor <;> simp [evalE, sigGet, h]
  | getProp p =>
    intro w h
    constructor <;> (simp only [evalE, stateGet, h]; split_ifs <;> rfl)
  | seq a b iha ihb =>
    intro w h
    simp only [evalE]
    rcases hx : evalE a w with ⟨res, w1⟩
    have h1 : w1.srcSubs = w.srcSubs ∧ w1.deps = w.deps := by
      have := iha w h; rw [hx] at this; exact this
    have hs1 : w1.stack = [] := by
      have := evalE_sameEF a w
      rw [hx] at this
      rw [this.2.1, h]
    cases res with
    | ok v =>
      have h2 := ihb w1 hs1
      exact ⟨h2.1.trans h1.1, h2.2.trans h1.2⟩
    | error e => exact h1
  | mul a b iha ihb =>
    intro w h
    simp only [evalE]
    rcases hx : evalE a w with ⟨res, w1⟩
    have h1 : w1.srcSubs = w.srcSubs ∧ w1.deps = w.deps := by
      have := iha w h; rw [hx] at this; exact this
    have hs1 : w1.stack = [] := by
      have := evalE_sameEF a w
      rw [hx] at this
      rw [this.2.1, h]
    cases res with
    | ok va =>
      dsimp only
      rcases h2 : evalE b w1 with ⟨res2, w2⟩
      have hb : w2.srcSubs = w1.srcSubs ∧ w2.deps = w1.deps := by
        have := ihb w1 hs1; rw [h2] at this; exact this
      cases res2 with
      | ok vb => exact ⟨hb.1.trans h1.1, hb.2.trans h1.2⟩
      | error e => exact ⟨hb.1.trans h1.1, hb.2.trans h1.2⟩
    | error e => exact h1
  | logE a iha =>
    intro w h
    simp only [evalE]
    rcases hx : evalE a w with ⟨res, w1⟩
    have h1 : w1.srcSubs = w.srcSubs ∧ w1.deps = w.deps := by
      have := iha w h; rw [hx] at this; exact this
    cases res with
    | ok v => exact h1
    | error e => exact h1
  | throwE => intro w _; exact ⟨rfl, rfl⟩

theorem runCleanupSlot_stackEmpty (b : Bool) (r : Nat) (w : World) (h : w.stack = []) :
    (runCleanupSlot b r w).deps = w.deps := by
  cases hc : (w.runners r).cleanup with
  | none => simp only [runCleanupSlot, hc]
  | some e0 =>
    simp only [runCleanupSlot, hc]
    rcases hev : evalE e0 { w with trace := w.trace ++ [Ev.cleanupRun r] } with ⟨res, w2⟩
    have h2 : w2.deps = w.deps := by
      have := evalE_stackEmpty e0 { w with trace := w.trace ++ [Ev.cleanupRun r] } h
      rw [hev] at this
      exact this.2
    cases res with
    | ok v => exact h2
    | error ev => cases b <;> exact h2

/-- After `dispose()`, the runner is detached: it is in no subscriber set and
not on the (empty) stack. -/
theorem absentR_disposeEffect {r : Nat} {w : World} (hC : consistent w)
    (hst : w.stack = []) : absentR r (disposeEffect r w) := by
  have h1 : absentR r (unsubscribeAll r w) := by
    constructor
    · intro s hx
      rw [mem_unsubscribeAll] at hx
      rcases (hC r s).mp hx.1 with ⟨l, hl, hsl⟩
      refine hx.2 ⟨rfl, ?_⟩
      rw [hl]
      exact hsl
    · rw [(unsubscribeAll_fields r w).2.1, hst]
      simp
  exact absentR_runCleanupSlot true r h1

theorem disposeEffect_deps {r : Nat} {w : World} (hst : w.stack = []) :
    (disposeEffect r w).deps r = none := by
  have h1 : (unsubscribeAll r w).stack = [] := by
    rw [(unsubscribeAll_fields r w).2.1, hst]
  rw [show (disposeEffect r w).deps
      = (unsubscribeAll r w).deps from runCleanupSlot_stackEmpty true r _ h1]
  rw [unsubscribeAll_deps, Function.update_same]

theorem disposeEffect_cleanupRun {r : Nat} {w : World} (e : Expr)
    (hc : (w.runners r).cleanup = some e) :
    Ev.cleanupRun r ∈ (disposeEffect r w).trace := by
  obtain ⟨d, _, _, _, _, _, _, _, htr, _, hsome⟩ :=
    runCleanupSlot_spec true r (unsubscribeAll r w)
  have hc' : ((unsubscribeAll r w).runners r).cleanup = some e := by
    rw [(unsubscribeAll_fields r w).1]
    exact hc
  obtain ⟨t, ht⟩ := hsome e hc'
  rw [show disposeEffect r w = runCleanupSlot true r (unsubscribeAll r w) from rfl, htr, ht]
  exact List.mem_append_right _ (List.mem_cons_self _ _)

theorem sigSet_calls_absent {r : Nat} (s : Nat) (a : SetArg) {w : World}
    (h : absentR r w) : (((sigSet s a w).2).runners r).calls = (w.runners r).calls := by
  simp only [sigSet]
  split
  · rfl
  · have hsnap : ∀ x ∈ (setSigVal s (match a with
        | SetArg.updater f => f (w.srcVal s) | SetArg.val v => v) w).srcSubs s,
        x ≠ Sub.runner r := by
      intro x hx he
      exact h.1 s (he ▸ hx)
    rw [notifyList_runnersAt _ _ hsnap]
    rfl

theorem absentR_sigSet {r : Nat} (s : Nat) (a : SetArg) {w : World}
    (h : absentR r w) : absentR r ((sigSet s a w).2) := by
  simp only [sigSet]
  split
  · exact absentR_congr rfl rfl h
  · have h1 : absentR r (setSigVal s (match a with
        | SetArg.updater f => f (w.srcVal s) | SetArg.val v => v) w) :=
      absentR_congr rfl rfl h
    have hsnap : ∀ x ∈ (setSigVal s (match a with
        | SetArg.updater f => f (w.srcVal s) | SetArg.val v => v) w).srcSubs s,
        x ≠ Sub.runner r := by
      intro x hx he
      exact h.1 s (he ▸ hx)
    exact absentR_notifyList _ _ h1 hsnap

theorem sigSet_updater (s : Nat) (f : Val → Val) (w : World) :
    sigSet s (SetArg.updater f) w = sigSet s (SetArg.val (f (w.srcVal s))) w := rfl

theorem sigSet_silent (s : Nat) (v : Val) (w : World) (h : w.srcVal s = v) :
    sigSet s (SetArg.val v) w = (v, w) := by
  subst h
  simp [sigSet, setSigVal, Function.update_eq_self]

theorem sigSet_notify (s : Nat) (v : Val) (w : World) (h : w.srcVal s ≠ v) :
    sigSet s (SetArg.val v) w
      = (v, notifyList ((setSigVal s v w).srcSubs s) (setSigVal s v w)) := by
  simp only [sigSet]
  rw [if_neg h]

theorem stateSet_silent (p : String) (v : Val) (w : World)
    (h : (alookup w.target p).getD Val.undef = v) :
    stateSet p v w = { w with target := aset w.target p v } := by
  simp only [stateSet]
  rw [if_pos h]

theorem stateSet_notify_some (p : String) (v : Val) (w : World) (sid : Nat)
    (h : (alookup w.target p).getD Val.undef ≠ v)
    (halk : alookup w.propSigs p = some sid) :
    stateSet p v w
      = notifyGlobal p ((alookup w.target p).getD Val.undef) v
          (notifyList (w.srcSubs sid) { w with target := aset w.target p v }) := by
  simp only [stateSet]
  rw [if_neg h]
  rw [halk]

theorem stateSet_notify_none (p : String) (v : Val) (w : World)
    (h : (alookup w.target p).getD Val.undef ≠ v)
    (halk : alookup w.propSigs p = none) :
    stateSet p v w
      = notifyGlobal p ((alookup w.target p).getD Val.undef) v
          { w with target := aset w.target p v } := by
  simp only [stateSet]
  rw [if_neg h]
  rw [halk]

theorem stateSet_gcalls_changed (p : String) (v : Val) (w : World)
    (h : (alookup w.target p).getD Val.undef ≠ v) :
    (stateSet p v w).gcalls
      = w.gcalls ++ w.gsubs.map (fun c => (c, p, (alookup w.target p).getD Val.undef, v)) := by
  cases halk : alookup w.propSigs p with
  | some sid =>
    rw [stateSet_notify_some p v w sid h halk]
    show (notifyList (w.srcSubs sid) { w with target := aset w.target p v }).gcalls
        ++ (notifyList (w.srcSubs sid) { w with target := aset w.target p v }).gsubs.map _
      = _
    rw [(notifyList_quiet (w.srcSubs sid) { w with target := aset w.target p v }).1,
        (notifyList_quiet (w.srcSubs sid) { w with target := aset w.target p v }).2.1]
  | none =>
    rw [stateSet_notify_none p v w h halk]
    rfl

theorem alookup_aset {α : Type} (l : List (String × α)) (k : String) (v : α) :
    alookup (aset l k v) k = some v := by
  induction l with
  | nil => simp [alookup, aset, List.find?]
  | cons e t ih =>
    by_cases he : e.1 == k
    · simp [alookup, aset, he, List.find?]
    · simp only [aset, he, if_false, Bool.false_eq_true, ite_false]
      simp only [alookup, List.find?, he]
      exact ih

theorem alookup_aremove {α : Type} (l : List (String × α)) (k : String) :
    alookup (aremove l k) k = none := by
  induction l with
  | nil => rfl
  | cons e t ih =>
    by_cases he : e.1 == k
    · simp only [aremove, List.filter, he, Bool.not_true]
      exact ih
    · simp only [aremove, List.filter, he, Bool.not_false]
      simp only [alookup, List.find?, he]
      exact ih

theorem stateDelete_noop (p : String) (w : World) (h : alookup w.target p = none) :
    stateDelete p w = w := by
  simp only [stateDelete, h, Option.isSome_none, Bool.false_eq_true, if_false]
  rw [aremove_of_alookup_none h]

theorem stateDelete_existed (p : String) (w : World) (old : Val)
    (h : alookup w.target p = some old) :
    (stateDelete p w).gcalls
        = w.gcalls ++ w.gsubs.map (fun c => (c, p, old, Val.undef))
    ∧ alookup (stateDelete p w).propSigs p = none
    ∧ alookup (stateDelete p w).target p = none := by
  simp only [stateDelete, h, Option.getD_some, Option.isSome_some, if_true]
  cases halk : alookup w.propSigs p with
  | some sid =>
    have hq := notifyList_quiet (({ w with target := aremove w.target p }).srcSubs sid)
      { w with target := aremove w.target p }
    refine ⟨?_, ?_, ?_⟩
    · show (notifyList _ _).gcalls ++ (notifyList _ _).gsubs.map _ = _
      rw [hq.1, hq.2.1]
    · show alookup (aremove (notifyList _ _).propSigs p) p = none
      exact alookup_aremove _ p
    · show alookup (notifyList _ _).target p = none
      rw [hq.2.2.2.1]
      exact alookup_aremove _ p
  | none =>
    refine ⟨rfl, ?_, ?_⟩
    · show alookup (aremove w.propSigs p) p = none
      exact alookup_aremove _ p
    · show alookup (aremove w.target p) p = none
      exact alookup_aremove _ p

theorem computedGet_clean (c : Nat) (w : World) (h : (w.runners c).dirty = false) :
    computedGet c w = ((w.runners c).cached, w) := by
  simp [computedGet, h]

theorem getN_clean (c : Nat) : ∀ (n : Nat) (w : World),
    (w.runners c).dirty = false → getN c n w = w := by
  intro n
  induction n with
  | zero => intro w _; rfl
  | succ k ih =>
    intro w h
    show getN c k (computedGet c w).2 = w
    have hc : (computedGet c w).2 = w := by
      rw [computedGet_clean c w h]
    rw [hc]
    exact ih w h

theorem createComputed_calls (e : Expr) (w : World) :
    (((createComputed e w).2).runners (createComputed e w).1).calls = 1 := by
  simp only [createComputed]
  rw [recompute_calls]
  simp [Function.update_same]

theorem recompute_closure (r : Nat) (w : World) (ce : Expr)
    (hev : (evalE (w.runners r).body (prologue false r w)).1
      = Except.ok (Val.closure ce)) :
    ((recompute r w).runners r).cached = (w.runners r).cached
    ∧ ((recompute r w).runners r).cleanup = some ce
    ∧ ((recompute r w).runners r).dirty = false := by
  simp only [recompute]
  rcases h2 : evalE (w.runners r).body (prologue false r w) with ⟨res, w2⟩
  rw [h2] at hev
  simp only at hev
  subst hev
  have hef : SameEF (prologue false r w) w2 := by
    have := evalE_sameEF (w.runners r).body (prologue false r w)
    rw [h2] at this
    exact this
  have base : w2.runners r
      = { w.runners r with cleanup := none, calls := (w.runners r).calls + 1 } := by
    rw [hef.1, prologue_runners, Function.update_same]
  refine ⟨?_, ?_, ?_⟩
  · show ((Function.update w2.runners r
      { w2.runners r with cleanup := some ce, dirty := false }) r).cached = _
    rw [Function.update_same, base]
  · show ((Function.update w2.runners r
      { w2.runners r with cleanup := some ce, dirty := false }) r).cleanup = _
    rw [Function.update_same]
  · show ((Function.update w2.runners r
      { w2.runners r with cleanup := some ce, dirty := false }) r).dirty = _
    rw [Function.update_same]

theorem runRunner_trace_spec (r : Nat) (w : World) :
    ∃ c b,
      (runRunner r w).trace
        = w.trace ++ ((w.deps r).getD []).map (fun s => Ev.unsub r s)
            ++ c ++ [Ev.push r, Ev.bodyStart r] ++ b ++ [Ev.pop r]
      ∧ ((w.runners r).cleanup = none → c = [])
      ∧ (∀ e, (w.runners r).cleanup = some e → ∃ t, c = Ev.cleanupRun r :: t)
      ∧ (b = [] ∨ b = [Ev.report])
      ∧ (runRunner r w).stack = w.stack := by
  obtain ⟨c, htr, hnone, hsome⟩ := prologue_trace true r w
  have hstack := runRunner_stack r w
  simp only [runRunner] at hstack ⊢
  rcases hev : evalE (w.runners r).body (prologue true r w) with ⟨res, w2⟩
  rw [hev] at hstack
  have hef : SameEF (prologue true r w) w2 := by
    have := evalE_sameEF (w.runners r).body (prologue true r w)
    rw [hev] at this
    exact this
  cases res with
  | ok v =>
    refine ⟨c, [], ?_, hnone, hsome, Or.inl rfl, hstack⟩
    have hgoal : w2.trace ++ [Ev.pop r]
        = w.trace ++ ((w.deps r).getD []).map (fun s => Ev.unsub r s)
            ++ c ++ [Ev.push r, Ev.bodyStart r] ++ [] ++ [Ev.pop r] := by
      rw [hef.2.2.1, htr]
      simp [List.append_assoc]
    cases v <;> exact hgoal
  | error ev =>
    refine ⟨c, [Ev.report], ?_, hnone, hsome, Or.inr rfl, hstack⟩
    show (w2.trace ++ [Ev.report]) ++ [Ev.pop r] = _
    rw [hef.2.2.1, htr]

/-
Scenario worlds used by the claim theorems.  Ids are deterministic: each
`createSignal` / `createEffect` / `createComputed` / `subscribe` takes the
next fresh id (0, 1, 2, ...).
-/

/-- C1 scenario: signal 2 (id 0), computed `n() * 2` (id 1). -/
def c1w2 : World :=
  (createComputed (Expr.mul (Expr.getSig 0) (Expr.num 2))
    (createSignal (Val.int 2) initWorld).2).2

/-- C1 scenario after `setN(5)`. -/
def c1w3 : World := (sigSet 0 (SetArg.val (Val.int 5)) c1w2).2

/-- C1 scenario: the getter call after the set. -/
def c1g : Val × World := computedGet 1 c1w3

/-- Claim C1.  The claim says a dependency notification only marks the
Computed dirty, with `fn` not invoked eagerly and the next getter call
invoking `fn` exactly once more.  The code does the opposite: `set`
synchronously invokes the computed's `recompute` (so `fn` runs inside the
notification, visible here as `calls` going 1 to 2 and `Ev.bodyStart 1`
appearing in the trace of the `set`), `dirty` is never set back to `true`
(no mark-dirty exists in the code), and the next getter call therefore
invokes `fn` zero more times (`calls` stays 2).  This contradicts the code's
own header comment (signals.js 130-133: "when dependencies change it marks
dirty; the next call recomputes"), so it is recorded as a code bug. -/
theorem computed_set_recomputes_eagerly :
    ((c1w2.runners 1).calls = 1 ∧ (c1w2.runners 1).dirty = false)
  ∧ ((c1w3.runners 1).calls = 2 ∧ (c1w3.runners 1).dirty = false
      ∧ c1w3.trace.drop c1w2.trace.length
          = [Ev.unsub 1 0, Ev.push 1, Ev.bodyStart 1, Ev.pop 1])
  ∧ (c1g.1 = Val.int 10 ∧ (c1g.2.runners 1).calls = 2) := by
  decide

/-- C2 scenario: `const [n,setN]=createSignal(2); const c=createComputed(()=>n()*2)`. -/
def c2w2 : World :=
  (createComputed (Expr.mul (Expr.getSig 0) (Expr.num 2))
    (createSignal (Val.int 2) initWorld).2).2

/-- C2 scenario: first `c()`. -/
def c2g1 : Val × World := computedGet 1 c2w2

/-- C2 scenario: second `c()`. -/
def c2g2 : Val × World := computedGet 1 c2g1.2

/-- C2 scenario: `setN(5)`. -/
def c2w3 : World := (sigSet 0 (SetArg.val (Val.int 5)) c2g2.2).2

/-- C2 scenario: third `c()`. -/
def c2g3 : Val × World := computedGet 1 c2w3

/-- Claim C2.  The caching contract of `createComputed`: when not dirty the
getter is a pure cache read (`getN c n w = w`, so in particular `fn` is not
re-invoked however many times the getter is called), creation invokes `fn`
exactly once, and the spec scenario `c(); c(); setN(5); c()` yields values
`[4, 4, 10]` with `fn` invoked exactly 2 times in total. -/
theorem computed_caching_contract :
    (∀ (c n : Nat) (w : World), (w.runners c).dirty = false → getN c n w = w)
  ∧ (∀ (e : Expr) (w : World),
        (((createComputed e w).2).runners (createComputed e w).1).calls = 1)
  ∧ (c2g1.1 = Val.int 4 ∧ c2g2.1 = Val.int 4 ∧ c2g3.1 = Val.int 10
      ∧ (c2g3.2.runners 1).calls = 2) :=
  ⟨getN_clean, createComputed_calls, by decide⟩

/-- Witness for C2 at a concrete computed. -/
theorem computed_caching_contract_witness : getN 1 3 c2w2 = c2w2 :=
  computed_caching_contract.1 1 3 c2w2 (by decide)

/-- C3 scenario: an effect reading signal 0 and returning a cleanup that
logs 7. -/
def c3w2 : World :=
  (createEffect (Expr.seq (Expr.getSig 0) (Expr.fnE (Expr.logE (Expr.num 7))))
    (createSignal (Val.int 1) initWorld).2).2

/-- C3 scenario after `set(9)`: the effect re-runs. -/
def c3w3 : World := (sigSet 0 (SetArg.val (Val.int 9)) c3w2).2

/-- C3 scenario: an effect whose body throws. -/
def c3tw : World := (createEffect Expr.throwE initWorld).2

/-- Claim C3.  Every effect run produces, in order: the unsubscription of
all previously recorded dependencies, the previous cleanup (if any), the
stack push, the body invocation, possibly one error report, and the stack
pop — with the stack restored even when the body throws (`b = [Ev.report]`
case) and nothing propagated (the run is a total function on worlds).  The
concrete part shows the spec's re-run scenario: on a dependency
notification the previous cleanup runs before the new body
(`Ev.cleanupRun 1` precedes `Ev.bodyStart 1`), and a throwing body is
reported and still popped. -/
theorem effect_run_protocol :
    (∀ (r : Nat) (w : World), ∃ c b,
        (runRunner r w).trace
          = w.trace ++ ((w.deps r).getD []).map (fun s => Ev.unsub r s)
              ++ c ++ [Ev.push r, Ev.bodyStart r] ++ b ++ [Ev.pop r]
        ∧ ((w.runners r).cleanup = none → c = [])
        ∧ (∀ e, (w.runners r).cleanup = some e → ∃ t, c = Ev.cleanupRun r :: t)
        ∧ (b = [] ∨ b = [Ev.report])
        ∧ (runRunner r w).stack = w.stack)
  ∧ (c3w3.log = [Val.int 7]
      ∧ c3w3.trace.drop c3w2.trace.length
          = [Ev.unsub 1 0, Ev.cleanupRun 1, Ev.push 1, Ev.bodyStart 1, Ev.pop 1]
      ∧ c3tw.trace = [Ev.push 0, Ev.bodyStart 0, Ev.report, Ev.pop 0]
      ∧ c3tw.errs = 1 ∧ c3tw.stack = []) :=
  ⟨runRunner_trace_spec, by decide⟩

/-- Witness for C3 at a concrete runner and world. -/
theorem effect_run_protocol_witness :
    (runRunner 0 initWorld).stack = initWorld.stack := by
  obtain ⟨c, b, h⟩ := effect_run_protocol.1 0 initWorld
  exact h.2.2.2.2

/-- Claim C4.  After any Runner execution (effect run or computed
recompute) the mutual-consistency invariant between `Runner.dependencies`
(`EFFECT_DEPS`) and `DependencySource.subscribers` (`__subs`) is preserved:
a runner is recorded in a source's subscriber set exactly when the source
is recorded in the runner's dependency set, so no stale source from an
earlier run retains the runner.  It also holds after every client
interaction sequence from the initial state. -/
theorem runner_subscription_consistency :
    (∀ (w : World) (r : Nat), consistent w →
        consistent (runRunner r w) ∧ consistent (recompute r w))
  ∧ (∀ (l : List Cmd), consistent (execCmds l initWorld)) :=
  ⟨fun _ r h => ⟨consistent_runRunner r h, consistent_recompute r h⟩,
   consistent_execCmds⟩

/-- Witness for C4 at a concrete world. -/
theorem runner_subscription_consistency_witness :
    consistent (runRunner 0 initWorld) :=
  (runner_subscription_consistency.1 initWorld 0 consistent_initWorld).1

/-- C5 scenario: `const [get,set,sub]=createSignal(0); sub(()=>log.push(get()));
set(1); set(1); set(2)`. -/
def c5w : World :=
  let w := (createSignal (Val.int 0) initWorld).2
  let w := (subscribeSig 0 (Expr.logE (Expr.getSig 0)) w).2
  let w := (sigSet 0 (SetArg.val (Val.int 1)) w).2
  let w := (sigSet 0 (SetArg.val (Val.int 1)) w).2
  (sigSet 0 (SetArg.val (Val.int 2)) w).2

/-- Claim C5.  `set`: an updater function is applied to the previous value;
setting a `===`-equal value returns it and leaves the world untouched (no
subscriber of any kind is notified); setting a different value stores it,
notifies a snapshot of the subscriber set taken before notification, and
returns it; and the spec scenario logs `[1, 2]`. -/
theorem signal_set_contract :
    (∀ (s : Nat) (f : Val → Val) (w : World),
        sigSet s (SetArg.updater f) w = sigSet s (SetArg.val (f (w.srcVal s))) w)
  ∧ (∀ (s : Nat) (v : Val) (w : World), w.srcVal s = v →
        sigSet s (SetArg.val v) w = (v, w))
  ∧ (∀ (s : Nat) (v : Val) (w : World), w.srcVal s ≠ v →
        sigSet s (SetArg.val v) w
          = (v, notifyList ((setSigVal s v w).srcSubs s) (setSigVal s v w)))
  ∧ c5w.log = [Val.int 1, Val.int 2] :=
  ⟨sigSet_updater, sigSet_silent, sigSet_notify, by decide⟩

/-- Witness for C5 at a concrete no-op set. -/
theorem signal_set_contract_witness :
    sigSet 0 (SetArg.val Val.undef) initWorld = (Val.undef, initWorld) :=
  signal_set_contract.2.1 0 Val.undef initWorld rfl

/-- Claim C6.  After `dispose()` (called outside any reactive run, on a
consistent world) the runner is removed from every subscriber set, its
dependency entry is gone, the last cleanup was invoked (visible in the
trace), and a subsequent `set` on any signal invokes the disposed runner's
`fn` zero more times and leaves it absent. -/
theorem effect_dispose_permanent :
    ∀ (w : World) (r : Nat), consistent w → w.stack = [] →
      (∀ s, Sub.runner r ∉ (disposeEffect r w).srcSubs s)
      ∧ (disposeEffect r w).deps r = none
      ∧ (∀ e, (w.runners r).cleanup = some e →
          Ev.cleanupRun r ∈ (disposeEffect r w).trace)
      ∧ (∀ s a, (((sigSet s a (disposeEffect r w)).2).runners r).calls
            = ((disposeEffect r w).runners r).calls)
      ∧ (∀ s a, absentR r ((sigSet s a (disposeEffect r w)).2)) := by
  intro w r hC hst
  have habs := @absentR_disposeEffect r w hC hst
  exact ⟨habs.1, disposeEffect_deps hst, fun e he => disposeEffect_cleanupRun e he,
    fun s a => sigSet_calls_absent s a habs, fun s a => absentR_sigSet s a habs⟩

/-- Witness for C6 at a concrete dispose-then-set. -/
theorem effect_dispose_permanent_witness :
    (((sigSet 3 (SetArg.val (Val.int 7)) (disposeEffect 0 initWorld)).2).runners 0).calls
      = ((disposeEffect 0 initWorld).runners 0).calls :=
  (effect_dispose_permanent initWorld 0 consistent_initWorld rfl).2.2.2.1 3
    (SetArg.val (Val.int 7))

/-- C7 scenario base `$state({x:0})` world. -/
def c7sw : World := { initWorld with target := [("x", Val.int 0)] }

/-- C7 scenario: a global subscriber (id 0) and an effect (id 1) reading `.x`. -/
def c7w2 : World :=
  (createEffect (Expr.logE (Expr.getProp "x")) (stateSubscribe c7sw).2).2

/-- C7 scenario after `state.x = 1`. -/
def c7w3 : World := stateSet "x" (Val.int 1) c7w2

/-- C7 scenario after writing `state.x = 1` again (same value). -/
def c7w4 : World := stateSet "x" (Val.int 1) c7w3

/-- Claim C7.  A `$state` property write with a `===`-equal value only
stores the value (fully silent: the resulting world differs only in the
target record); a write with a different value stores it, notifies a
snapshot of the property's subscriber set, then invokes every global
subscriber with `(key, oldValue, newValue)`.  The scenario: the effect
re-runs observing the new value (`log = [0, 1]`, `calls = 2`, one global
call), and the repeated same-value write changes neither `calls` nor
`gcalls` nor the trace. -/
theorem state_write_contract :
    (∀ (p : String) (v : Val) (w : World), (alookup w.target p).getD Val.undef = v →
        stateSet p v w = { w with target := aset w.target p v })
  ∧ (∀ (p : String) (v : Val) (w : World) (sid : Nat),
        (alookup w.target p).getD Val.undef ≠ v → alookup w.propSigs p = some sid →
        stateSet p v w
          = notifyGlobal p ((alookup w.target p).getD Val.undef) v
              (notifyList (w.srcSubs sid) { w with target := aset w.target p v }))
  ∧ (∀ (p : String) (v : Val) (w : World), (alookup w.target p).getD Val.undef ≠ v →
        (stateSet p v w).gcalls
          = w.gcalls
              ++ w.gsubs.map (fun c => (c, p, (alookup w.target p).getD Val.undef, v)))
  ∧ (c7w3.log = [Val.int 0, Val.int 1] ∧ (c7w3.runners 1).calls = 2
      ∧ c7w3.gcalls = [(0, "x", Val.int 0, Val.int 1)]
      ∧ c7w4.gcalls = c7w3.gcalls ∧ (c7w4.runners 1).calls = 2
      ∧ c7w4.trace = c7w3.trace) :=
  ⟨stateSet_silent, stateSet_notify_some, stateSet_gcalls_changed, by decide⟩

/-- Witness for C7 at a concrete same-value write. -/
theorem state_write_contract_witness :
    stateSet "x" (Val.int 0) c7sw = { c7sw with target := aset c7sw.target "x" (Val.int 0) } :=
  state_write_contract.1 "x" (Val.int 0) c7sw (by decide)

/-- C8 scenario: `$state({x:1})` with a global subscriber (id 0) and an
effect (id 1) reading `.x`. -/
def c8w2 : World :=
  (createEffect (Expr.logE (Expr.getProp "x"))
    (stateSubscribe { initWorld with target := [("x", Val.int 1)] }).2).2

/-- C8 scenario after `delete state.x`. -/
def c8w3 : World := stateDelete "x" c8w2

/-- Claim C8.  Deleting a non-existent property is a silent no-op (the
world is unchanged).  Deleting an existing property notifies the global
subscribers with `newValue = undefined` exactly once each and discards the
property's DependencySource from the map; the scenario shows the
property's Runner subscriber re-ran exactly once (`calls = 2`, reading
`undefined`) and a second delete is a no-op. -/
theorem state_delete_contract :
    (∀ (p : String) (w : World), alookup w.target p = none → stateDelete p w = w)
  ∧ (∀ (p : String) (w : World) (old : Val), alookup w.target p = some old →
        (stateDelete p w).gcalls
            = w.gcalls ++ w.gsubs.map (fun c => (c, p, old, Val.undef))
        ∧ alookup (stateDelete p w).propSigs p = none
        ∧ alookup (stateDelete p w).target p = none)
  ∧ ((c8w3.runners 1).calls = 2
      ∧ c8w3.log = [Val.int 1, Val.undef]
      ∧ c8w3.gcalls = [(0, "x", Val.int 1, Val.undef)]
      ∧ stateDelete "x" c8w3 = c8w3) :=
  ⟨stateDelete_noop, stateDelete_existed,
   by decide, by decide, by decide, stateDelete_noop "x" c8w3 (by decide)⟩

/-- Witness for C8 at a concrete non-existent delete. -/
theorem state_delete_contract_witness : stateDelete "y" initWorld = initWorld :=
  state_delete_contract.1 "y" initWorld rfl

/-- C9 counterexample base world: a `$state` proxy with one global
subscriber (id 0) and no data properties. -/
def c9w : World := { initWorld with gsubs := [0], fresh := 1 }

/-- Claim C9 counterexample.  The claim says writes to the reserved names
are intercepted and produce no data-property notification of any kind.  In
the code `handler.set` has no reserved-name check: writing
`state.inspect = 42` stores the value on the underlying record and invokes
the global subscribe callbacks with key `"inspect"` — a notification. -/
theorem state_reserved_write_notifies :
    (stateSet "inspect" (Val.int 42) c9w).gcalls
      = [(0, "inspect", Val.undef, Val.int 42)] := by
  decide

/-- Claim C9 as amended.  Reads of the reserved names `subscribe` and
`inspect` are intercepted before reaching the underlying record and are
never tracked (the world is unchanged even while a Runner is active), and
`inspect()` returns a shallow non-reactive copy of the raw target without
tracking.  Writes to reserved names, however, are not intercepted: the
value is stored in the underlying record and, when it differs from the old
value, the global subscribe callbacks are notified like for any data
property (no Runner notification occurs — the trace is unchanged — since a
DependencySource is never created for these names). -/
theorem state_reserved_names_amended :
    (∀ w : World, stateGet "subscribe" w = (PropRead.subFn, w))
  ∧ (∀ w : World, stateGet "inspect" w = (PropRead.inspectFn, w))
  ∧ (∀ w : World, stateInspect w = w.target)
  ∧ (∀ (p : String) (v : Val) (w : World), (p = "subscribe" ∨ p = "inspect") →
        (alookup w.target p).getD Val.undef ≠ v → alookup w.propSigs p = none →
        (stateSet p v w).gcalls
            = w.gcalls
                ++ w.gsubs.map (fun c => (c, p, (alookup w.target p).getD Val.undef, v))
        ∧ (stateSet p v w).trace = w.trace
        ∧ alookup (stateSet p v w).target p = some v) := by
  refine ⟨?_, ?_, fun w => rfl, ?_⟩
  · intro w
    simp [stateGet]
  · intro w
    simp [stateGet]
  · intro p v w _ h halk
    rw [stateSet_notify_none p v w h halk]
    refine ⟨rfl, rfl, ?_⟩
    show alookup (aset w.target p v) p = some v
    exact alookup_aset w.target p v

/-- Witness for the amended C9 at a concrete reserved-name write. -/
theorem state_reserved_names_amended_witness :
    (stateSet "inspect" (Val.int 7) c9w).gcalls
        = c9w.gcalls
            ++ c9w.gsubs.map
                (fun c => (c, "inspect", (alookup c9w.target "inspect").getD Val.undef, Val.int 7))
      ∧ (stateSet "inspect" (Val.int 7) c9w).trace = c9w.trace
      ∧ alookup (stateSet "inspect" (Val.int 7) c9w).target "inspect" = some (Val.int 7) :=
  state_reserved_names_amended.2.2.2 "inspect" (Val.int 7) c9w (Or.inr rfl) (by decide) rfl

/-- C10 scenario: signal 2 (id 0) and a computed (id 1) whose `fn` reads
the signal and returns a function (which logs 99 when invoked). -/
def c10w2 : World :=
  (createComputed (Expr.seq (Expr.getSig 0) (Expr.fnE (Expr.logE (Expr.num 99))))
    (createSignal (Val.int 2) initWorld).2).2

/-- C10 scenario: a getter call on the function-returning computed. -/
def c10g : Val × World := computedGet 1 c10w2

/-- C10 scenario: `set(5)` triggers a recompute; the stored cleanup runs
first (logging 99) and is replaced. -/
def c10w3 : World := (sigSet 0 (SetArg.val (Val.int 5)) c10w2).2

/-- C10 witness world: a computed runner (id 0) whose body is a function
literal, with a non-trivial previously cached value. -/
def c10info : RunnerInfo :=
  { body := Expr.fnE (Expr.num 7), cleanup := none, kind := RKind.computed
    cached := Val.int 3, dirty := true, calls := 0 }

/-- C10 witness world wrapper: `c10info` installed as runner 0. -/
def c10aw : World :=
  { initWorld with runners := Function.update initWorld.runners 0 c10info }

/-- Claim C10.  When a computed's `fn` evaluates to a function value, the
recompute stores it as the cleanup and leaves `cached` unchanged (clearing
`dirty`), so the getter returns the previously cached value — `undefined`
when no non-function value was ever computed (scenario: `c10g.1 =
Val.undef`).  On the next recompute the stored cleanup is invoked before
the new body (trace order) and replaced. -/
theorem computed_function_result_is_cleanup :
    (∀ (r : Nat) (w : World) (ce : Expr),
        (evalE (w.runners r).body (prologue false r w)).1 = Except.ok (Val.closure ce) →
        ((recompute r w).runners r).cached = (w.runners r).cached
        ∧ ((recompute r w).runners r).cleanup = some ce
        ∧ ((recompute r w).runners r).dirty = false)
  ∧ (c10g.1 = Val.undef ∧ (c10w2.runners 1).cached = Val.undef
      ∧ (c10w2.runners 1).cleanup = some (Expr.logE (Expr.num 99))
      ∧ c10w3.log = [Val.int 99]
      ∧ (c10w3.runners 1).cleanup = some (Expr.logE (Expr.num 99))
      ∧ c10w3.trace.drop c10w2.trace.length
          = [Ev.unsub 1 0, Ev.cleanupRun 1, Ev.push 1, Ev.bodyStart 1, Ev.pop 1]) :=
  ⟨recompute_closure, by decide⟩

/-- Witness for C10 at a concrete function-returning computed body. -/
theorem computed_function_result_is_cleanup_witness :
    ((recompute 0 c10aw).runners 0).cached = (c10aw.runners 0).cached
    ∧ ((recompute 0 c10aw).runners 0).cleanup = some (Expr.num 7)
    ∧ ((recompute 0 c10aw).runners 0).dirty = false :=
  computed_function_result_is_cleanup.1 0 c10aw (Expr.num 7) rfl

end RSig
